import Mathlib

/-!
# Verification of the go-di dependency-injection container

Shallow embedding of the core of the `lcrux/go-di` repository
(files `di/container.go` — the current variant —, `di/lifecycle_context.go`,
`di/di-utils/map.go`, `di/di-utils/types.go`) and proofs of the behavioural
claims about registration, resolution, scoping and shutdown.

Modelling conventions:
* Go maps (`diutils.Map`, `diutils.AsyncMap`, plain maps) are modelled as
  association lists `List (String × α)` with first-match lookup; `Set`
  replaces in place, `Delete` removes, `Keys` lists the keys.  Go map
  iteration order is unspecified; the list order is one admissible order.
* `reflect.Type` is modelled by `GoType`, carrying exactly what
  `diutils.NameOfType` inspects: pointer kind, element, package path,
  name, and the `String()` rendering.
* Instances (`reflect.Value`) are modelled by `Val`: either an opaque
  instance carrying a globally fresh numeric id (each factory invocation
  yields a fresh id — this models object identity), or the synthesized
  container / lifecycle-context references.  `reflect.Value` validity
  checks always pass for factory-produced values (a `reflect.Call` result
  is always valid, and its static type was checked assignable at
  registration), so they are not modelled.
* Factory invocations are recorded in an explicit log (list of entry
  keys, in invocation order), so "the factory was invoked n times" is
  the count of the entry's key in the log.
* Goroutine fan-out in the shutdown paths (semaphore-bounded workers)
  only interleaves independent per-instance teardowns; the model runs
  them sequentially in snapshot order.  The cancellation signal is a
  `Bool`: `true` models a signal already triggered on entry, `false`
  one that never fires (mid-run firing is real-time behaviour outside
  the model).
* `containerEntry.dependencyTreeCache` memoizes only successful
  dependency-tree computations over immutable entry data, so the model
  recomputes the tree each time (observationally equivalent).
-/

/-! ## Association-list maps (model of `diutils.Map` / `diutils.AsyncMap`) -/

def mapGet {α : Type} : List (String × α) → String → Option α
  | [], _ => none
  | (k', v) :: rest, k => if k' = k then some v else mapGet rest k

def mapSet {α : Type} : List (String × α) → String → α → List (String × α)
  | [], k, v => [(k, v)]
  | (k', v') :: rest, k, v =>
      if k' = k then (k, v) :: rest else (k', v') :: mapSet rest k v

def mapDelete {α : Type} : List (String × α) → String → List (String × α)
  | [], _ => []
  | p :: rest, k => if p.1 = k then mapDelete rest k else p :: mapDelete rest k

def mapKeys {α : Type} (m : List (String × α)) : List String :=
  m.map Prod.fst

theorem mapGet_set_self {α : Type} (m : List (String × α)) (k : String) (v : α) :
    mapGet (mapSet m k v) k = some v := by
  induction m with
  | nil => simp [mapSet, mapGet]
  | cons p rest ih =>
      by_cases h : p.1 = k
      · simp [mapSet, mapGet, h]
      · simp [mapSet, mapGet, h, ih]

theorem mapGet_set_ne {α : Type} (m : List (String × α)) (k k' : String) (v : α)
    (h : k ≠ k') : mapGet (mapSet m k v) k' = mapGet m k' := by
  induction m with
  | nil => simp [mapSet, mapGet, h]
  | cons p rest ih =>
      by_cases hp : p.1 = k
      · simp [mapSet, mapGet, hp, h]
      · by_cases hp' : p.1 = k'
        · simp [mapSet, mapGet, hp, hp', Ne.symm h]
        · simp [mapSet, mapGet, hp, hp', ih]

/-! ## `GoType`: the fragment of `reflect.Type` that `NameOfType` consults -/

inductive GoType where
  /-- A defined (named) Go type: package path, name, `String()` rendering. -/
  | named (pkgPath : String) (nm : String) (str : String)
  /-- A pointer type `*E`. -/
  | ptr (elem : GoType)
  /-- An unnamed, non-pointer type (slice, func, ...): `Name()` is empty. -/
  | other (str : String)
deriving DecidableEq, Repr

def GoType.pkgPath : GoType → String
  | .named p _ _ => p
  | .ptr _ => ""
  | .other _ => ""

def GoType.nm : GoType → String
  | .named _ n _ => n
  | .ptr _ => ""
  | .other _ => ""

def GoType.str : GoType → String
  | .named _ _ s => s
  | .ptr e => "*" ++ e.str
  | .other s => s

def GoType.isPtr : GoType → Bool
  | .ptr _ => true
  | _ => false

def GoType.elem : GoType → GoType
  | .ptr e => e
  | t => t

/-- Model of `diutils.NameOfType`: the fully qualified name of a type,
stripping one pointer level. -/
def NameOfType (t : GoType) : String :=
  let pkgPath := if t.isPtr then t.elem.pkgPath else t.pkgPath
  let tName := if t.isPtr then t.elem.nm else t.nm
  if tName = "" then t.str
  else if pkgPath = "" then tName
  else pkgPath ++ "/" ++ tName

/-! ## Scopes, values, lifecycle contexts -/

inductive LifecycleScope where
  | Transient
  | Singleton
  | Scoped
deriving DecidableEq, Repr

/-- A resolved value: an opaque instance with identity `id`, or one of the
two synthesized self-injectable references. -/
inductive Val where
  | inst (id : Nat)
  | containerRef
  | ctxRef (ctxKey : String)
deriving DecidableEq, Repr

inductive DiErr where
  | nilServiceType
  | emptyKey
  | nilFactory
  | alreadyRegistered (key : String)
  | badFactoryShape
  | notAssignable (want got : String)
  | serviceNotFound (key : String)
  | circularDependency (typeStr : String)
  | depTreeFailed (typeStr : String) (inner : DiErr)
  | depNotResolved (depStr svcStr : String)
  | failedDependency (typeStr : String) (inner : DiErr)
  | failedToResolve (typeStr : String)
  | notRegistered (key : String)
  | dependsOnUnregistered (svcStr depStr : String)
  | setOnClosedContext
  | noBackgroundContext
  | ctxNotInContainer (ctxKey : String)
  | endLifecycleError (key : String)
  | endLifecyclePanic (key : String)
  | ctxCanceledBeforeShutdown
  | shutdownCanceledBeforeStarting
  | outOfFuel
deriving DecidableEq, Repr

/-- Model of `lifecycleContextImpl`: unique id, instance cache, closed flag. -/
structure LifecycleCtx where
  id : String
  cache : List (String × Val)
  closed : Bool
deriving DecidableEq, Repr

/-- Model of `NewLifecycleContext` (the uuid is supplied by the caller). -/
def NewLifecycleContext (id : String) : LifecycleCtx :=
  { id := id, cache := [], closed := false }

/-- Model of `lifecycleContextImpl.GetInstance`: empty key or closed
context yields "not found". -/
def GetInstance (lctx : LifecycleCtx) (key : String) : Option Val :=
  if key = "" then none
  else if lctx.closed then none
  else mapGet lctx.cache key

/-- Model of `lifecycleContextImpl.SetInstance`.  Returns the error (if
any) and the (possibly unchanged) context.  The `instance.IsValid()`
check is not modelled: every `Val` is a valid value. -/
def SetInstance (lctx : LifecycleCtx) (key : String) (inst : Val) :
    Option DiErr × LifecycleCtx :=
  if key = "" then (some .emptyKey, lctx)
  else if lctx.closed then (some .setOnClosedContext, lctx)
  else (none, { lctx with cache := mapSet lctx.cache key inst })

/-- What `instance.Interface().(LifecycleListener)` plus the hook's outcome
give for a cached value.  A `hooks` environment assigns a behaviour to
every instance id; the synthesized references are never listeners. -/
inductive HookBehavior where
  | noListener
  | hookOk
  | hookErr
  | hookPanic
deriving DecidableEq, Repr

def hookOf (hooks : Nat → HookBehavior) : Val → HookBehavior
  | .inst i => hooks i
  | .containerRef => .noListener
  | .ctxRef _ => .noListener

/-- The key-walking loop of `lifecycleContextImpl.Shutdown`, over the
snapshot of cache keys.  Accumulates the surviving cache, the error list
and the list of hook invocations `(key, instance)`. -/
def shutdownStep (hooks : Nat → HookBehavior) :
    List (String × Val) → List DiErr → List (String × Val) → List String →
    List (String × Val) × List DiErr × List (String × Val)
  | cache, errs, invs, [] => (cache, errs, invs)
  | cache, errs, invs, k :: ks =>
      match mapGet cache k with
      | none => shutdownStep hooks cache errs invs ks
      | some inst =>
          match hookOf hooks inst with
          | .noListener => shutdownStep hooks (mapDelete cache k) errs invs ks
          | .hookOk =>
              shutdownStep hooks (mapDelete cache k) errs (invs ++ [(k, inst)]) ks
          | .hookErr =>
              shutdownStep hooks cache (errs ++ [.endLifecycleError k])
                (invs ++ [(k, inst)]) ks
          | .hookPanic =>
              shutdownStep hooks cache (errs ++ [.endLifecyclePanic k])
                (invs ++ [(k, inst)]) ks

/-- Model of `lifecycleContextImpl.Shutdown`.  `canceled` is the state of
the supplied cancellation signal.  A hook error or recovered panic leaves
the instance in the cache; success (or no listener capability) removes
it; if not canceled the context is marked closed on return. -/
def ctxShutdown (hooks : Nat → HookBehavior) (canceled : Bool)
    (lctx : LifecycleCtx) :
    LifecycleCtx × List DiErr × List (String × Val) :=
  if canceled then (lctx, [.ctxCanceledBeforeShutdown], [])
  else
    match shutdownStep hooks lctx.cache [] [] (mapKeys lctx.cache) with
    | (cache', errs, invs) =>
        ({ lctx with cache := cache', closed := true }, errs, invs)

/-! ## Container registry and registration -/

/-- Model of `containerEntry` (the factory function is represented by its
parameter types; its runtime effect is a fresh instance). -/
structure ContainerEntry where
  serviceType : GoType
  key : String
  factoryFnParams : List GoType
  scope : LifecycleScope
deriving DecidableEq, Repr

/-- Model of `containerImpl`: the registry and the live lifecycle
contexts (including the background context). -/
structure ContainerImpl where
  registry : List (String × ContainerEntry)
  lifecycleContexts : List (String × LifecycleCtx)
deriving DecidableEq, Repr

def backgroundContextKey : String := "__BACKGROUND_CONTEXT_KEY__"

def containerGoType : GoType :=
  .named "github.com/lcrux/go-di/di" "Container" "di.Container"

def lifecycleContextGoType : GoType :=
  .named "github.com/lcrux/go-di/di" "LifecycleContext" "di.LifecycleContext"

def containerReflectedKey : String := NameOfType containerGoType

def lifecycleContextReflectedKey : String := NameOfType lifecycleContextGoType

/-- Model of `NewContainer` (the background context's uuid is supplied). -/
def NewContainer (bgId : String) : ContainerImpl :=
  { registry := []
    lifecycleContexts := [(backgroundContextKey, NewLifecycleContext bgId)] }

/-- Model of Go's `strings.TrimSpace`: drop leading and trailing
whitespace (written over the character list so it computes in the
kernel; `String.trim` does not reduce there). -/
def goTrimSpace (s : String) : String :=
  ⟨((s.data.dropWhile Char.isWhitespace).reverse.dropWhile
      Char.isWhitespace).reverse⟩

/-- The value of `factoryFn interface{}` as `Register` inspects it: `none`
models a nil interface; a non-nil value is either a function (with its
parameter and result types) or some non-function value. -/
inductive FactoryDesc where
  | fnD (params : List GoType) (outs : List GoType)
  | nonFunc (t : GoType)
deriving DecidableEq, Repr

/-- Model of `containerImpl.Register`.  `assignable` is Go's
`AssignableTo` oracle.  Returns the error (if any), the resulting
container, and the factory-invocation log (always empty: `Register`
never calls a factory).  A nil `serviceType` is `none`. -/
def Register (assignable : GoType → GoType → Bool) (c : ContainerImpl)
    (serviceType : Option GoType) (key : String) (scope : LifecycleScope)
    (factoryFn : Option FactoryDesc) :
    Option DiErr × ContainerImpl × List String :=
  match serviceType with
  | none => (some .nilServiceType, c, [])
  | some st =>
      if goTrimSpace key = "" then (some .emptyKey, c, [])
      else
        match factoryFn with
        | none => (some .nilFactory, c, [])
        | some fd =>
            if (mapGet c.registry key).isSome then
              (some (.alreadyRegistered key), c, [])
            else
              match fd with
              | .nonFunc _ => (some .badFactoryShape, c, [])
              | .fnD params outs =>
                  match outs with
                  | [out] =>
                      if assignable out st then
                        let entry : ContainerEntry :=
                          { serviceType := st, key := key
                            factoryFnParams := params, scope := scope }
                        (none, { c with registry := mapSet c.registry key entry }, [])
                      else (some (.notAssignable st.str out.str), c, [])
                  | _ => (some .badFactoryShape, c, [])

/-- The inner loop of `Validate` over one entry's factory parameters:
first unsatisfied dependency, skipping the two synthesized keys. -/
def validateParams (reg : List (String × ContainerEntry)) (svc : GoType) :
    List GoType → Option DiErr
  | [] => none
  | dep :: deps =>
      let depKey := NameOfType dep
      if depKey = containerReflectedKey ∨ depKey = lifecycleContextReflectedKey then
        validateParams reg svc deps
      else if (mapGet reg depKey).isSome then validateParams reg svc deps
      else some (.dependsOnUnregistered svc.str dep.str)

def validateEntries (reg : List (String × ContainerEntry)) :
    List (String × ContainerEntry) → Option DiErr
  | [] => none
  | (_, e) :: rest =>
      match validateParams reg e.serviceType e.factoryFnParams with
      | some err => some err
      | none => validateEntries reg rest

/-- Model of `containerImpl.Validate`: the error (if any) and the
factory-invocation log (always empty: `Validate` never calls a factory). -/
def Validate (c : ContainerImpl) : Option DiErr × List String :=
  (validateEntries c.registry c.registry, [])

/-! ## Dependency-tree computation (`getDependencyTree`) -/

/-- The synthesized entry pushed for the two self-injectable keys. -/
def fakeEntry (k : String) : ContainerEntry :=
  { serviceType :=
      if k = containerReflectedKey then containerGoType else lifecycleContextGoType
    key := k, factoryFnParams := [], scope := .Transient }

/-- The `visit` closure of `getDependencyTree`: depth-first walk from key
`k` with the current DFS stack `visiting`, the set of finished keys
`seen`, and the post-order list built so far.  Fuel bounds the recursion
depth (structurally, so the definition computes);
`getDependencyTree` supplies enough for any acyclic walk. -/
def visitKey (reg : List (String × ContainerEntry)) :
    Nat → String → List String → List String → List ContainerEntry →
    Except DiErr (List String × List ContainerEntry)
  | 0, _, _, _, _ => .error .outOfFuel
  | fuel + 1, k, visiting, seen, order =>
      if k = containerReflectedKey ∨ k = lifecycleContextReflectedKey then
        .ok (seen, order ++ [fakeEntry k])
      else
        match mapGet reg k with
        | none => .error (.serviceNotFound k)
        | some entry =>
            if k ∈ visiting then .error (.circularDependency entry.serviceType.str)
            else if k ∈ seen then .ok (seen, order)
            else
              match (entry.factoryFnParams.map NameOfType).foldlM
                  (fun acc dk => visitKey reg fuel dk (k :: visiting) acc.1 acc.2)
                  (seen, order) with
              | .error e => .error e
              | .ok (seen', order') => .ok (k :: seen', order' ++ [entry])

/-- The inner loop of `visit`: visits a list of dependency keys in
order, threading `seen`/`order` (a definitional wrapper around the fold
inside `visitKey`). -/
def visitKeys (reg : List (String × ContainerEntry)) (fuel : Nat)
    (ks : List String) (visiting seen : List String)
    (order : List ContainerEntry) :
    Except DiErr (List String × List ContainerEntry) :=
  ks.foldlM (fun acc dk => visitKey reg fuel dk visiting acc.1 acc.2)
    (seen, order)

theorem visitKeys_nil (reg : List (String × ContainerEntry)) (fuel : Nat)
    (visiting seen : List String) (order : List ContainerEntry) :
    visitKeys reg fuel [] visiting seen order = .ok (seen, order) := rfl

theorem visitKeys_cons (reg : List (String × ContainerEntry)) (fuel : Nat)
    (k : String) (ks : List String) (visiting seen : List String)
    (order : List ContainerEntry) :
    visitKeys reg fuel (k :: ks) visiting seen order
      = match visitKey reg fuel k visiting seen order with
        | .error e => .error e
        | .ok (seen', order') => visitKeys reg fuel ks visiting seen' order' := by
  cases h : visitKey reg fuel k visiting seen order with
  | error e =>
      rw [visitKeys, List.foldlM_cons, h]
      rfl
  | ok p =>
      obtain ⟨s', o'⟩ := p
      rw [visitKeys, List.foldlM_cons, h]
      rfl

theorem visitKey_succ (reg : List (String × ContainerEntry)) (fuel : Nat)
    (k : String) (visiting seen : List String) (order : List ContainerEntry) :
    visitKey reg (fuel + 1) k visiting seen order
      = if k = containerReflectedKey ∨ k = lifecycleContextReflectedKey then
          .ok (seen, order ++ [fakeEntry k])
        else
          match mapGet reg k with
          | none => .error (.serviceNotFound k)
          | some entry =>
              if k ∈ visiting then .error (.circularDependency entry.serviceType.str)
              else if k ∈ seen then .ok (seen, order)
              else
                match visitKeys reg fuel (entry.factoryFnParams.map NameOfType)
                    (k :: visiting) seen order with
                | .error e => .error e
                | .ok (seen', order') => .ok (k :: seen', order' ++ [entry]) := rfl

/-- Fuel that suffices for any walk that does not hit a cycle: the DFS
stack holds pairwise-distinct registry keys, so its depth is bounded by
the registry size. -/
def treeFuel (reg : List (String × ContainerEntry)) : Nat := reg.length + 1

/-- Model of `containerImpl.getDependencyTree` (the memo cache is not
modelled; see the header note). -/
def getDependencyTree (reg : List (String × ContainerEntry)) (key : String) :
    Except DiErr (List ContainerEntry) :=
  match visitKey reg (treeFuel reg) key [] [] [] with
  | .error e => .error e
  | .ok (_, order) => .ok order

/-! ## Resolution (`resolveDependencies`, `Resolve`) -/

/-- The mutable state threaded through one resolution call: the
container's lifecycle contexts, the fresh-instance counter, the
factory-invocation log, and the in-flight `resolved` map. -/
structure ResolveSt where
  contexts : List (String × LifecycleCtx)
  nextId : Nat
  log : List String
  resolved : List (String × Val)
deriving DecidableEq, Repr

/-- Model of `containerImpl.loadInstance`: consult the scope cache
(background context for Singleton, the active context for Scoped). -/
def loadInstance (contexts : List (String × LifecycleCtx)) (ctxKey : String)
    (entry : ContainerEntry) : Option Val :=
  match entry.scope with
  | .Singleton =>
      (mapGet contexts backgroundContextKey).bind fun bg => GetInstance bg entry.key
  | .Scoped =>
      (mapGet contexts ctxKey).bind fun cx => GetInstance cx entry.key
  | .Transient => none

/-- Model of `containerImpl.persistInstance`: store the new instance in
the applicable scope cache.  Returns the error (if any) and the updated
context map (unchanged on error). -/
def persistInstance (contexts : List (String × LifecycleCtx)) (ctxKey : String)
    (entry : ContainerEntry) (inst : Val) :
    Option DiErr × List (String × LifecycleCtx) :=
  match entry.scope with
  | .Singleton =>
      match mapGet contexts backgroundContextKey with
      | none => (some .noBackgroundContext, contexts)
      | some bg =>
          if (GetInstance bg entry.key).isSome then (none, contexts)
          else
            match SetInstance bg entry.key inst with
            | (some e, _) => (some e, contexts)
            | (none, bg') => (none, mapSet contexts backgroundContextKey bg')
  | .Scoped =>
      match mapGet contexts ctxKey with
      | none => (some (.ctxNotInContainer ctxKey), contexts)
      | some cx =>
          match SetInstance cx entry.key inst with
          | (some e, _) => (some e, contexts)
          | (none, cx') => (none, mapSet contexts ctxKey cx')
  | .Transient => (none, contexts)

/-- The parameter-gathering loop before a factory call: the first factory
parameter whose key is absent from the in-flight `resolved` map, if any
(the gathered values themselves do not influence the model factory). -/
def firstMissingParam (resolved : List (String × Val)) :
    List GoType → Option GoType
  | [] => none
  | t :: ts =>
      if (mapGet resolved (NameOfType t)).isSome then firstMissingParam resolved ts
      else some t

/-- One iteration of the `resolveDependencies` loop body for `entry`:
synthesized keys are satisfied directly; otherwise consult the scope
cache, and on a miss gather parameters, invoke the factory (a fresh
instance id, recorded in the log) and persist by scope.  Returns the
error (if any) and the updated state (partial mutations kept). -/
def resolveOne (ctxKey : String) (entry : ContainerEntry) (st : ResolveSt) :
    Option DiErr × ResolveSt :=
  if entry.key = lifecycleContextReflectedKey then
    (none, { st with resolved := mapSet st.resolved entry.key (.ctxRef ctxKey) })
  else if entry.key = containerReflectedKey then
    (none, { st with resolved := mapSet st.resolved entry.key .containerRef })
  else
    match loadInstance st.contexts ctxKey entry with
    | some cached =>
        (none, { st with resolved := mapSet st.resolved entry.key cached })
    | none =>
        match firstMissingParam st.resolved entry.factoryFnParams with
        | some missing =>
            (some (.depNotResolved missing.str entry.serviceType.str), st)
        | none =>
            let inst : Val := .inst st.nextId
            let st1 : ResolveSt :=
              { st with nextId := st.nextId + 1, log := st.log ++ [entry.key] }
            match persistInstance st1.contexts ctxKey entry inst with
            | (some e, _) => (some e, st1)
            | (none, cs) =>
                let st2 : ResolveSt :=
                  { st1 with contexts := cs,
                             resolved := mapSet st1.resolved entry.key inst }
                (none, st2)

/-- Model of `containerImpl.resolveDependencies`: walk the dependency
order; a failing entry aborts with its error wrapped, keeping the state
mutations made so far. -/
def resolveDeps (ctxKey : String) :
    List ContainerEntry → ResolveSt → Option DiErr × ResolveSt
  | [], st => (none, st)
  | e :: es, st =>
      match resolveOne ctxKey e st with
      | (some err, st') => (some (.failedDependency e.serviceType.str err), st')
      | (none, st') => resolveDeps ctxKey es st'

/-- A container plus the fresh-instance counter. -/
structure World where
  c : ContainerImpl
  nextId : Nat
deriving DecidableEq, Repr

/-- Model of `containerImpl.Resolve`.  The lifecycle context argument is
the key of a context tracked by the container, or `none` (Go `nil`),
which resolves to the background context.  Returns the result, the
updated world, and the factory-invocation log of this call. -/
def Resolve (w : World) (key : String) (ctxArg : Option String) :
    Except DiErr Val × World × List String :=
  let ctxKey := match ctxArg with
    | none => backgroundContextKey
    | some ck => ck
  if key = containerReflectedKey then (.ok .containerRef, w, [])
  else if key = lifecycleContextReflectedKey then (.ok (.ctxRef ctxKey), w, [])
  else
    match mapGet w.c.registry key with
    | none => (.error (.notRegistered key), w, [])
    | some entry =>
        match getDependencyTree w.c.registry key with
        | .error e => (.error (.depTreeFailed entry.serviceType.str e), w, [])
        | .ok order =>
            let st0 : ResolveSt :=
              { contexts := w.c.lifecycleContexts, nextId := w.nextId,
                log := [], resolved := [] }
            match resolveDeps ctxKey order st0 with
            | (some e, st) =>
                (.error (.failedDependency entry.serviceType.str e),
                 { c := { w.c with lifecycleContexts := st.contexts },
                   nextId := st.nextId }, st.log)
            | (none, st) =>
                let w' : World :=
                  { c := { w.c with lifecycleContexts := st.contexts },
                    nextId := st.nextId }
                match mapGet st.resolved key with
                | none => (.error (.failedToResolve entry.serviceType.str), w', st.log)
                | some v => (.ok v, w', st.log)

/-- A sequence of `Resolve` calls for the same key, with the per-call
context arguments; results and logs are collected in order. -/
def resolveSeq (key : String) :
    World → List (Option String) →
    World × List (Except DiErr Val) × List String
  | w, [] => (w, [], [])
  | w, ctxArg :: rest =>
      match Resolve w key ctxArg with
      | (r, w', log) =>
          match resolveSeq key w' rest with
          | (w'', rs, logs) => (w'', r :: rs, log ++ logs)

/-! ## Container shutdown -/

/-- Model of `containerImpl.Shutdown`: if the signal is already
triggered, return a single cancellation error and change nothing;
otherwise shut down every lifecycle context (the bounded goroutine
fan-out is sequentialized), collect all errors and hook invocations, and
replace the context set with a fresh background context. -/
def containerShutdown (hooks : Nat → HookBehavior) (canceled : Bool)
    (c : ContainerImpl) (freshBgId : String) :
    ContainerImpl × List DiErr × List (String × Val) :=
  if canceled then (c, [.shutdownCanceledBeforeStarting], [])
  else
    let folded :=
      c.lifecycleContexts.foldl
        (fun (acc : List DiErr × List (String × Val)) p =>
          match ctxShutdown hooks false p.2 with
          | (_, errs, invs) => (acc.1 ++ errs, acc.2 ++ invs))
        ([], [])
    ({ c with lifecycleContexts :=
         [(backgroundContextKey, NewLifecycleContext freshBgId)] },
     folded.1, folded.2)

/-! ## Basic lemmas about the map model and counting -/

theorem mapGet_set_cases {α : Type} {m : List (String × α)} {k0 k : String}
    {v : α} {u : α} (h : mapGet (mapSet m k0 v) k = some u) :
    (k = k0 ∧ u = v) ∨ (k ≠ k0 ∧ mapGet m k = some u) := by
  by_cases hk : k = k0
  · subst hk
    rw [mapGet_set_self] at h
    exact Or.inl ⟨rfl, (Option.some.inj h).symm⟩
  · rw [mapGet_set_ne m k0 k v (fun h' => hk h'.symm)] at h
    exact Or.inr ⟨hk, h⟩

theorem mapGet_delete_ne {α : Type} (m : List (String × α)) (k k0 : String)
    (h : k ≠ k0) : mapGet (mapDelete m k) k0 = mapGet m k0 := by
  induction m with
  | nil => rfl
  | cons p rest ih =>
      by_cases hp : p.1 = k
      · have hpk : ¬ p.1 = k0 := by rw [hp]; exact h
        simp [mapDelete, mapGet, hp, hpk, ih, h]
      · by_cases hp0 : p.1 = k0
        · simp [mapDelete, mapGet, hp, hp0, Ne.symm h]
        · simp [mapDelete, mapGet, hp, hp0, ih]

theorem mapGet_delete_self {α : Type} (m : List (String × α)) (k : String) :
    mapGet (mapDelete m k) k = none := by
  induction m with
  | nil => rfl
  | cons p rest ih =>
      by_cases hp : p.1 = k
      · simp [mapDelete, hp, ih]
      · simp [mapDelete, mapGet, hp, ih]

theorem mapGet_mem_keys {α : Type} {m : List (String × α)} {k : String} {v : α}
    (h : mapGet m k = some v) : k ∈ mapKeys m := by
  induction m with
  | nil => simp [mapGet] at h
  | cons p rest ih =>
      by_cases hp : p.1 = k
      · simp [mapKeys, hp]
      · simp [mapGet, hp] at h
        simp [mapKeys]
        exact Or.inr (by simpa [mapKeys] using ih h)

/-- Number of occurrences of a key in an invocation log. -/
def keyCount (k : String) : List String → Nat
  | [] => 0
  | x :: xs => (if x = k then 1 else 0) + keyCount k xs

theorem keyCount_append (k : String) (a b : List String) :
    keyCount k (a ++ b) = keyCount k a + keyCount k b := by
  induction a with
  | nil => simp [keyCount]
  | cons x xs ih => simp [keyCount, ih]; omega

theorem keyCount_single_ne (k x : String) (h : x ≠ k) :
    keyCount k [x] = 0 := by simp [keyCount, h]

theorem keyCount_single_eq (k : String) : keyCount k [k] = 1 := by
  simp [keyCount]

theorem two_le_length_of_mem {α : Type} {l : List α} {a b : α}
    (ha : a ∈ l) (hb : b ∈ l) (hab : a ≠ b) : 2 ≤ l.length := by
  induction l with
  | nil => simp at ha
  | cons x xs ih =>
      rcases List.mem_cons.mp ha with rfl | ha'
      · rcases List.mem_cons.mp hb with rfl | hb'
        · exact absurd rfl hab
        · have : 0 < xs.length := List.length_pos_of_mem hb'
          simp only [List.length_cons]; omega
      · have : 0 < xs.length := List.length_pos_of_mem ha'
        simp only [List.length_cons]; omega

/-! ## Claim theorems: cancellation and closed-context behaviour -/

/-- **C6.** Calling `Shutdown` — on a lifecycle context or on the whole
container — with a cancellation signal already triggered at entry
returns exactly one cancellation error, invokes zero teardown hooks, and
returns the context/container unchanged (so every cached instance stays
exactly as retrievable as before and the closed flag is untouched). -/
theorem shutdown_already_canceled :
    (∀ (hooks : Nat → HookBehavior) (lctx : LifecycleCtx),
        ctxShutdown hooks true lctx = (lctx, [.ctxCanceledBeforeShutdown], [])) ∧
    (∀ (hooks : Nat → HookBehavior) (c : ContainerImpl) (freshBgId : String),
        containerShutdown hooks true c freshBgId
          = (c, [.shutdownCanceledBeforeStarting], [])) := by
  exact ⟨fun _ _ => rfl, fun _ _ _ => rfl⟩

/-- **C8.** On a lifecycle context whose closed flag is set, `SetInstance`
always returns an error and leaves the context (hence its cache)
unchanged, and `GetInstance` returns "not found" for every key, whatever
the underlying cache still contains. -/
theorem closed_context_refuses (lctx : LifecycleCtx) (hclosed : lctx.closed = true) :
    (∀ key inst, (SetInstance lctx key inst).1.isSome = true ∧
        (SetInstance lctx key inst).2 = lctx) ∧
    (∀ key, GetInstance lctx key = none) := by
  constructor
  · intro key inst
    by_cases hk : key = "" <;> simp [SetInstance, hk, hclosed]
  · intro key
    by_cases hk : key = "" <;> simp [GetInstance, hk, hclosed]

theorem closed_context_refuses_witness :
    ((SetInstance ⟨"w", [("a", .inst 5)], true⟩ "a" (.inst 7)).1.isSome = true ∧
      (SetInstance ⟨"w", [("a", .inst 5)], true⟩ "a" (.inst 7)).2
        = ⟨"w", [("a", .inst 5)], true⟩) ∧
    GetInstance ⟨"w", [("a", .inst 5)], true⟩ "a" = none := by
  exact ⟨(closed_context_refuses ⟨"w", [("a", .inst 5)], true⟩ rfl).1 "a" (.inst 7),
         (closed_context_refuses ⟨"w", [("a", .inst 5)], true⟩ rfl).2 "a"⟩

/-- **C9.** After a container-wide `Shutdown` whose cancellation signal
did not fire, the container's context set is exactly one fresh, empty,
open background context — the same context set `NewContainer` builds —
and the registry is untouched; if the signal had already fired, the
container is unchanged (the context set is not replaced). -/
theorem container_shutdown_resets_contexts :
    (∀ (hooks : Nat → HookBehavior) (c : ContainerImpl) (freshBgId : String),
        ((containerShutdown hooks false c freshBgId).1).lifecycleContexts
            = (NewContainer freshBgId).lifecycleContexts ∧
        ((containerShutdown hooks false c freshBgId).1).registry = c.registry ∧
        (NewContainer freshBgId).lifecycleContexts
            = [(backgroundContextKey,
                { id := freshBgId, cache := [], closed := false })]) ∧
    (∀ (hooks : Nat → HookBehavior) (c : ContainerImpl) (freshBgId : String),
        (containerShutdown hooks true c freshBgId).1 = c) := by
  constructor
  · intro hooks c freshBgId
    exact ⟨rfl, rfl, rfl⟩
  · intro hooks c freshBgId
    rfl

/-! ## Claim theorems: `Validate` and `Register` -/

theorem validateParams_none_iff (reg : List (String × ContainerEntry))
    (svc : GoType) (deps : List GoType) :
    validateParams reg svc deps = none ↔
      ∀ dep ∈ deps, NameOfType dep = containerReflectedKey ∨
        NameOfType dep = lifecycleContextReflectedKey ∨
        (mapGet reg (NameOfType dep)).isSome = true := by
  induction deps with
  | nil => simp [validateParams]
  | cons d ds ih =>
      by_cases h1 : NameOfType d = containerReflectedKey ∨
          NameOfType d = lifecycleContextReflectedKey
      · rcases h1 with h1 | h1 <;>
          simp [validateParams, h1, ih]
      · rw [not_or] at h1
        by_cases h2 : (mapGet reg (NameOfType d)).isSome = true
        · simp [validateParams, h1.1, h1.2, h2, ih, not_or]
        · simp [validateParams, h1.1, h1.2, h2, not_or]

theorem validateEntries_none_iff (reg : List (String × ContainerEntry))
    (entries : List (String × ContainerEntry)) :
    validateEntries reg entries = none ↔
      ∀ p ∈ entries,
        validateParams reg p.2.serviceType p.2.factoryFnParams = none := by
  induction entries with
  | nil => simp [validateEntries]
  | cons p rest ih =>
      obtain ⟨ks, e⟩ := p
      cases hvp : validateParams reg e.serviceType e.factoryFnParams with
      | some err => simp [validateEntries, hvp]
      | none => simp [validateEntries, hvp, ih]

/-- **C7.** `Validate` reports an error exactly when some registered
entry's factory declares a parameter whose derived identity is neither
registered nor one of the two synthesized self-injectable identities;
when the dependency graph is closed under this rule it returns nil, and
it never invokes a factory (empty invocation log). -/
theorem validate_error_iff (c : ContainerImpl) :
    ((Validate c).1.isSome = true ↔
      ∃ p ∈ c.registry, ∃ dep ∈ p.2.factoryFnParams,
        NameOfType dep ≠ containerReflectedKey ∧
        NameOfType dep ≠ lifecycleContextReflectedKey ∧
        mapGet c.registry (NameOfType dep) = none) ∧
    (Validate c).2 = [] := by
  refine ⟨?_, rfl⟩
  have h1 : (Validate c).1 = validateEntries c.registry c.registry := rfl
  rw [h1, Option.isSome_iff_ne_none, Ne, validateEntries_none_iff]
  constructor
  · intro h
    push_neg at h
    obtain ⟨p, hp, hvp⟩ := h
    rw [Ne, validateParams_none_iff] at hvp
    push_neg at hvp
    obtain ⟨dep, hdep, hc1, hc2, hc3⟩ := hvp
    exact ⟨p, hp, dep, hdep, hc1, hc2, by
      cases hmg : mapGet c.registry (NameOfType dep) with
      | none => rfl
      | some v => rw [hmg] at hc3; simp at hc3⟩
  · rintro ⟨p, hp, dep, hdep, h1', h2', h3'⟩ hall
    have hvp := (validateParams_none_iff _ _ _).mp (hall p hp) dep hdep
    rcases hvp with h | h | h
    · exact h1' h
    · exact h2' h
    · rw [h3'] at h; simp at h

/-- **C4.** `Register` returns an error on a nil service type, a blank
identity, a nil factory, a non-function factory, a factory not returning
exactly one value assignable to the declared type, or an identity that
is already registered; in every failing case the registry is unchanged
(the earlier registration under a duplicated identity stays intact), and
`Register` never invokes a factory (empty invocation log). -/
theorem register_validation (assignable : GoType → GoType → Bool)
    (c : ContainerImpl) (serviceType : Option GoType) (key : String)
    (scope : LifecycleScope) (factoryFn : Option FactoryDesc) :
    (serviceType = none →
        (Register assignable c serviceType key scope factoryFn).1.isSome = true) ∧
    (goTrimSpace key = "" →
        (Register assignable c serviceType key scope factoryFn).1.isSome = true) ∧
    (factoryFn = none →
        (Register assignable c serviceType key scope factoryFn).1.isSome = true) ∧
    (∀ t, factoryFn = some (.nonFunc t) →
        (Register assignable c serviceType key scope factoryFn).1.isSome = true) ∧
    (∀ ps outs, factoryFn = some (.fnD ps outs) → outs.length ≠ 1 →
        (Register assignable c serviceType key scope factoryFn).1.isSome = true) ∧
    (∀ st ps out, serviceType = some st → factoryFn = some (.fnD ps [out]) →
        assignable out st = false →
        (Register assignable c serviceType key scope factoryFn).1.isSome = true) ∧
    ((mapGet c.registry key).isSome = true →
        (Register assignable c serviceType key scope factoryFn).1.isSome = true) ∧
    ((Register assignable c serviceType key scope factoryFn).1.isSome = true →
        (Register assignable c serviceType key scope factoryFn).2.1 = c) ∧
    (Register assignable c serviceType key scope factoryFn).2.2 = [] := by
  cases serviceType with
  | none => simp [Register]
  | some st =>
      by_cases hkey : goTrimSpace key = ""
      · simp [Register, hkey]
      · cases factoryFn with
        | none => simp [Register, hkey]
        | some fd =>
            by_cases hdup : (mapGet c.registry key).isSome = true
            · simp [Register, hkey, hdup]
            · cases fd with
              | nonFunc t => simp [Register, hkey, hdup]
              | fnD ps outs =>
                  match outs with
                  | [] => simp [Register, hkey, hdup]
                  | [out] =>
                      by_cases hass : assignable out st
                      · simp [Register, hkey, hdup, hass]
                      · simp [Register, hkey, hdup, hass]
                  | o1 :: o2 :: rest => simp [Register, hkey, hdup]

theorem register_validation_witness :
    (Register (fun _ _ => true) (NewContainer "bg") none "k" .Transient
        none).1.isSome = true ∧
    (Register (fun _ _ => true) (NewContainer "bg") none "k" .Transient
        none).2.1 = NewContainer "bg" := by
  refine ⟨(register_validation (fun _ _ => true) (NewContainer "bg") none "k"
      .Transient none).1 rfl, ?_⟩
  exact (register_validation (fun _ _ => true) (NewContainer "bg") none "k"
      .Transient none).2.2.2.2.2.2.2.1
    ((register_validation (fun _ _ => true) (NewContainer "bg") none "k"
      .Transient none).1 rfl)

/-- **C10.** The derived service identity of a pointer type `*T` to a
named type `T` coincides with the identity of `T` itself (`NameOfType`
strips one pointer level), so after a successful type-keyed registration
of `T`, registering `*T` under its own derived identity fails with a
duplicate-registration error even though the Go types differ. -/
theorem ptr_identity_collides (p n s s' : String) (hn : n ≠ "")
    (assignable : GoType → GoType → Bool) (c c1 : ContainerImpl)
    (scope1 scope2 : LifecycleScope) (fd1 fd2 : FactoryDesc)
    (log1 : List String)
    (hreg : Register assignable c (some (.named p n s))
        (NameOfType (.named p n s)) scope1 (some fd1) = (none, c1, log1)) :
    NameOfType (GoType.ptr (.named p n s')) = NameOfType (.named p n s) ∧
    (Register assignable c1 (some (.ptr (.named p n s')))
        (NameOfType (GoType.ptr (.named p n s'))) scope2 (some fd2)).1
      = some (.alreadyRegistered (NameOfType (.named p n s))) := by
  have hids : NameOfType (GoType.ptr (.named p n s')) = NameOfType (.named p n s) := by
    simp [NameOfType, GoType.isPtr, GoType.elem, GoType.pkgPath, GoType.nm, hn]
  refine ⟨hids, ?_⟩
  rw [hids]
  by_cases hkey : goTrimSpace (NameOfType (.named p n s)) = ""
  · simp [Register, hkey] at hreg
  · by_cases hdup : (mapGet c.registry (NameOfType (.named p n s))).isSome = true
    · simp [Register, hkey, hdup] at hreg
    · cases fd1 with
      | nonFunc t => simp [Register, hkey, hdup] at hreg
      | fnD ps outs =>
          match outs with
          | [] => simp [Register, hkey, hdup] at hreg
          | o1 :: o2 :: rest => simp [Register, hkey, hdup] at hreg
          | [out] =>
              by_cases hass : assignable out (.named p n s)
              · simp [Register, hkey, hdup, hass] at hreg
                have hget : (mapGet c1.registry
                    (NameOfType (.named p n s))).isSome = true := by
                  rw [← hreg.1]
                  simp [mapGet_set_self]
                simp [Register, hkey, hget]
              · simp [Register, hkey, hdup, hass] at hreg


/-- Concrete container holding one registration of `pkg.T`, as produced
by a successful type-keyed `Register` on a fresh container. -/
def c10Container : ContainerImpl :=
  { registry := [("pkg/T",
      { serviceType := .named "pkg" "T" "pkg.T", key := "pkg/T",
        factoryFnParams := [], scope := .Singleton })],
    lifecycleContexts := [(backgroundContextKey, NewLifecycleContext "bg")] }

theorem ptr_identity_collides_witness :
    NameOfType (GoType.ptr (.named "pkg" "T" "pkg.T"))
        = NameOfType (.named "pkg" "T" "pkg.T") ∧
    (Register (fun _ _ => true) c10Container
        (some (.ptr (.named "pkg" "T" "pkg.T")))
        (NameOfType (GoType.ptr (.named "pkg" "T" "pkg.T"))) .Singleton
        (some (.fnD [] [.ptr (.named "pkg" "T" "pkg.T")]))).1
      = some (.alreadyRegistered (NameOfType (.named "pkg" "T" "pkg.T"))) :=
  ptr_identity_collides "pkg" "T" "pkg.T" "pkg.T" (by decide) (fun _ _ => true)
    (NewContainer "bg") c10Container .Singleton .Singleton
    (.fnD [] [.named "pkg" "T" "pkg.T"]) (.fnD [] [.ptr (.named "pkg" "T" "pkg.T")])
    [] (by decide)

/-! ## Claim theorems: lifecycle-context shutdown (C5) -/

/-- Occurrences of a key among the hook invocations of a shutdown run. -/
def invCount (k0 : String) (l : List (String × Val)) : Nat :=
  keyCount k0 (l.map Prod.fst)

theorem invCount_append (k0 : String) (a b : List (String × Val)) :
    invCount k0 (a ++ b) = invCount k0 a + invCount k0 b := by
  simp [invCount, keyCount_append]

theorem shutdownStep_not_mem (hooks : Nat → HookBehavior) (k0 : String) :
    ∀ (ks : List String) (cache : List (String × Val)) (errs : List DiErr)
      (invs : List (String × Val)), k0 ∉ ks →
      mapGet (shutdownStep hooks cache errs invs ks).1 k0 = mapGet cache k0 ∧
      invCount k0 (shutdownStep hooks cache errs invs ks).2.2 = invCount k0 invs := by
  intro ks
  induction ks with
  | nil => intro cache errs invs _; exact ⟨rfl, rfl⟩
  | cons k ks' ih =>
      intro cache errs invs hmem
      have hk : k ≠ k0 := fun h => hmem (h ▸ List.mem_cons_self k ks')
      have hks' : k0 ∉ ks' := fun h => hmem (List.mem_cons_of_mem k h)
      have hinv : ∀ inst : Val, invCount k0 (invs ++ [(k, inst)]) = invCount k0 invs := by
        intro inst
        rw [invCount_append]
        simp [invCount, keyCount, hk]
      cases hmg : mapGet cache k with
      | none => simpa [shutdownStep, hmg] using ih cache errs invs hks'
      | some inst =>
          have hdel : mapGet (mapDelete cache k) k0 = mapGet cache k0 :=
            mapGet_delete_ne cache k k0 hk
          cases hb : hookOf hooks inst with
          | noListener =>
              have := ih (mapDelete cache k) errs invs hks'
              simpa [shutdownStep, hmg, hb, hdel] using this
          | hookOk =>
              have := ih (mapDelete cache k) errs (invs ++ [(k, inst)]) hks'
              simpa [shutdownStep, hmg, hb, hdel, hinv] using this
          | hookErr =>
              have := ih cache (errs ++ [.endLifecycleError k])
                (invs ++ [(k, inst)]) hks'
              simpa [shutdownStep, hmg, hb, hinv] using this
          | hookPanic =>
              have := ih cache (errs ++ [.endLifecyclePanic k])
                (invs ++ [(k, inst)]) hks'
              simpa [shutdownStep, hmg, hb, hinv] using this

theorem shutdownStep_errs_mono (hooks : Nat → HookBehavior) :
    ∀ (ks : List String) (cache : List (String × Val)) (errs : List DiErr)
      (invs : List (String × Val)),
      ∃ extra, (shutdownStep hooks cache errs invs ks).2.1 = errs ++ extra := by
  intro ks
  induction ks with
  | nil => intro cache errs invs; exact ⟨[], by simp [shutdownStep]⟩
  | cons k ks' ih =>
      intro cache errs invs
      cases hmg : mapGet cache k with
      | none => simpa [shutdownStep, hmg] using ih cache errs invs
      | some inst =>
          cases hb : hookOf hooks inst with
          | noListener =>
              simpa [shutdownStep, hmg, hb] using ih (mapDelete cache k) errs invs
          | hookOk =>
              simpa [shutdownStep, hmg, hb] using
                ih (mapDelete cache k) errs (invs ++ [(k, inst)])
          | hookErr =>
              obtain ⟨extra, hx⟩ :=
                ih cache (errs ++ [.endLifecycleError k]) (invs ++ [(k, inst)])
              exact ⟨.endLifecycleError k :: extra, by
                simp [shutdownStep, hmg, hb, hx]⟩
          | hookPanic =>
              obtain ⟨extra, hx⟩ :=
                ih cache (errs ++ [.endLifecyclePanic k]) (invs ++ [(k, inst)])
              exact ⟨.endLifecyclePanic k :: extra, by
                simp [shutdownStep, hmg, hb, hx]⟩

theorem shutdownStep_key (hooks : Nat → HookBehavior) (k0 : String) (v0 : Val) :
    ∀ (ks : List String) (cache : List (String × Val)) (errs : List DiErr)
      (invs : List (String × Val)),
      ks.Nodup → k0 ∈ ks → mapGet cache k0 = some v0 →
      (invCount k0 (shutdownStep hooks cache errs invs ks).2.2 =
          invCount k0 invs +
            (if hookOf hooks v0 = .noListener then 0 else 1)) ∧
      (hookOf hooks v0 = .noListener ∨ hookOf hooks v0 = .hookOk →
          mapGet (shutdownStep hooks cache errs invs ks).1 k0 = none) ∧
      (hookOf hooks v0 = .hookErr →
          mapGet (shutdownStep hooks cache errs invs ks).1 k0 = some v0 ∧
          DiErr.endLifecycleError k0 ∈ (shutdownStep hooks cache errs invs ks).2.1) ∧
      (hookOf hooks v0 = .hookPanic →
          mapGet (shutdownStep hooks cache errs invs ks).1 k0 = some v0 ∧
          DiErr.endLifecyclePanic k0 ∈ (shutdownStep hooks cache errs invs ks).2.1) := by
  intro ks
  induction ks with
  | nil => intro cache errs invs _ hmem; simp at hmem
  | cons k ks' ih =>
      intro cache errs invs hnd hmem hget
      by_cases hk : k = k0
      · subst hk
        have hnotin : k ∉ ks' := (List.nodup_cons.mp hnd).1
        cases hb : hookOf hooks v0 with
        | noListener =>
            have hstep : shutdownStep hooks cache errs invs (k :: ks')
                = shutdownStep hooks (mapDelete cache k) errs invs ks' := by
              simp [shutdownStep, hget, hb]
            have hrest := shutdownStep_not_mem hooks k ks'
              (mapDelete cache k) errs invs hnotin
            refine ⟨?_, ?_, ?_, ?_⟩
            · rw [hstep, hrest.2]; simp
            · intro _
              rw [hstep, hrest.1]
              exact mapGet_delete_self cache k
            · intro h; simp at h
            · intro h; simp at h
        | hookOk =>
            have hstep : shutdownStep hooks cache errs invs (k :: ks')
                = shutdownStep hooks (mapDelete cache k) errs (invs ++ [(k, v0)]) ks' := by
              simp [shutdownStep, hget, hb]
            have hrest := shutdownStep_not_mem hooks k ks'
              (mapDelete cache k) errs (invs ++ [(k, v0)]) hnotin
            refine ⟨?_, ?_, ?_, ?_⟩
            · rw [hstep, hrest.2, invCount_append]
              simp [invCount, keyCount]
            · intro _
              rw [hstep, hrest.1]
              exact mapGet_delete_self cache k
            · intro h; simp at h
            · intro h; simp at h
        | hookErr =>
            have hstep : shutdownStep hooks cache errs invs (k :: ks')
                = shutdownStep hooks cache (errs ++ [.endLifecycleError k])
                    (invs ++ [(k, v0)]) ks' := by
              simp [shutdownStep, hget, hb]
            have hrest := shutdownStep_not_mem hooks k ks'
              cache (errs ++ [.endLifecycleError k]) (invs ++ [(k, v0)]) hnotin
            obtain ⟨extra, hx⟩ := shutdownStep_errs_mono hooks ks' cache
              (errs ++ [.endLifecycleError k]) (invs ++ [(k, v0)])
            refine ⟨?_, ?_, ?_, ?_⟩
            · rw [hstep, hrest.2, invCount_append]
              simp [invCount, keyCount]
            · intro h; simp at h
            · intro _
              refine ⟨?_, ?_⟩
              · rw [hstep, hrest.1]; exact hget
              · rw [hstep, hx]; simp
            · intro h; simp at h
        | hookPanic =>
            have hstep : shutdownStep hooks cache errs invs (k :: ks')
                = shutdownStep hooks cache (errs ++ [.endLifecyclePanic k])
                    (invs ++ [(k, v0)]) ks' := by
              simp [shutdownStep, hget, hb]
            have hrest := shutdownStep_not_mem hooks k ks'
              cache (errs ++ [.endLifecyclePanic k]) (invs ++ [(k, v0)]) hnotin
            obtain ⟨extra, hx⟩ := shutdownStep_errs_mono hooks ks' cache
              (errs ++ [.endLifecyclePanic k]) (invs ++ [(k, v0)])
            refine ⟨?_, ?_, ?_, ?_⟩
            · rw [hstep, hrest.2, invCount_append]
              simp [invCount, keyCount]
            · intro h; simp at h
            · intro h; simp at h
            · intro _
              refine ⟨?_, ?_⟩
              · rw [hstep, hrest.1]; exact hget
              · rw [hstep, hx]; simp
      · have hmem' : k0 ∈ ks' := by
          rcases List.mem_cons.mp hmem with h | h
          · exact absurd h.symm hk
          · exact h
        have hnd' : ks'.Nodup := (List.nodup_cons.mp hnd).2
        have hinv : ∀ inst : Val, invCount k0 (invs ++ [(k, inst)]) = invCount k0 invs := by
          intro inst
          rw [invCount_append]
          simp [invCount, keyCount, hk]
        cases hmg : mapGet cache k with
        | none =>
            simpa [shutdownStep, hmg] using ih cache errs invs hnd' hmem' hget
        | some inst =>
            have hdel : mapGet (mapDelete cache k) k0 = some v0 := by
              rw [mapGet_delete_ne cache k k0 hk]; exact hget
            cases hb : hookOf hooks inst with
            | noListener =>
                simpa [shutdownStep, hmg, hb] using
                  ih (mapDelete cache k) errs invs hnd' hmem' hdel
            | hookOk =>
                have := ih (mapDelete cache k) errs (invs ++ [(k, inst)])
                  hnd' hmem' hdel
                simpa [shutdownStep, hmg, hb, hinv] using this
            | hookErr =>
                have := ih cache (errs ++ [.endLifecycleError k])
                  (invs ++ [(k, inst)]) hnd' hmem' hget
                simpa [shutdownStep, hmg, hb, hinv] using this
            | hookPanic =>
                have := ih cache (errs ++ [.endLifecyclePanic k])
                  (invs ++ [(k, inst)]) hnd' hmem' hget
                simpa [shutdownStep, hmg, hb, hinv] using this

/-- **C5 (counterexample).** As literally stated the claim fails: for a
context with one cached instance whose hook errors, `Shutdown` leaves
the instance in the underlying cache and surfaces the error, but it also
marks the context closed, so the instance is NOT retrievable via
`GetInstance` afterwards. -/
theorem shutdown_failed_hook_not_retrievable :
    (ctxShutdown (fun _ => .hookErr) false ⟨"c0", [("k", .inst 0)], false⟩).2.1
        = [DiErr.endLifecycleError "k"] ∧
    mapGet ((ctxShutdown (fun _ => .hookErr) false
        ⟨"c0", [("k", .inst 0)], false⟩).1).cache "k" = some (.inst 0) ∧
    GetInstance (ctxShutdown (fun _ => .hookErr) false
        ⟨"c0", [("k", .inst 0)], false⟩).1 "k" = none := by
  refine ⟨rfl, rfl, rfl⟩

/-- **C5 (amended).** For a lifecycle context holding a cached instance
that implements the teardown capability, an uncancelled `Shutdown`
invokes that instance's hook exactly once; on success the instance is
removed from the cache; on hook error or panic the instance remains in
the underlying cache and the failure appears in the returned error list
— but, because `Shutdown` marks the context closed, the instance is no
longer retrievable via `GetInstance` (which reports "not found" on a
closed context). -/
theorem shutdown_listener_invoked_once (hooks : Nat → HookBehavior)
    (lctx : LifecycleCtx) (k0 : String) (v0 : Val)
    (lctx' : LifecycleCtx) (errs : List DiErr) (invs : List (String × Val))
    (hnodup : (mapKeys lctx.cache).Nodup)
    (hget : mapGet lctx.cache k0 = some v0)
    (hlisten : hookOf hooks v0 ≠ .noListener)
    (hrun : ctxShutdown hooks false lctx = (lctx', errs, invs)) :
    invCount k0 invs = 1 ∧
    (hookOf hooks v0 = .hookOk → mapGet lctx'.cache k0 = none) ∧
    (hookOf hooks v0 = .hookErr →
        mapGet lctx'.cache k0 = some v0 ∧ DiErr.endLifecycleError k0 ∈ errs) ∧
    (hookOf hooks v0 = .hookPanic →
        mapGet lctx'.cache k0 = some v0 ∧ DiErr.endLifecyclePanic k0 ∈ errs) ∧
    lctx'.closed = true ∧ GetInstance lctx' k0 = none := by
  have hmem : k0 ∈ mapKeys lctx.cache := mapGet_mem_keys hget
  have hkey := shutdownStep_key hooks k0 v0 (mapKeys lctx.cache)
    lctx.cache [] [] hnodup hmem hget
  have hrun' : ({ lctx with
        cache := (shutdownStep hooks lctx.cache [] [] (mapKeys lctx.cache)).1,
        closed := true },
      (shutdownStep hooks lctx.cache [] [] (mapKeys lctx.cache)).2.1,
      (shutdownStep hooks lctx.cache [] [] (mapKeys lctx.cache)).2.2)
      = (lctx', errs, invs) := by
    rw [← hrun]
    simp [ctxShutdown]
  obtain ⟨h1, h2, h3⟩ : ({ lctx with
        cache := (shutdownStep hooks lctx.cache [] [] (mapKeys lctx.cache)).1,
        closed := true } = lctx')
      ∧ (shutdownStep hooks lctx.cache [] [] (mapKeys lctx.cache)).2.1 = errs
      ∧ (shutdownStep hooks lctx.cache [] [] (mapKeys lctx.cache)).2.2 = invs := by
    have e1 := congrArg Prod.fst hrun'
    have e2 := congrArg (fun p => p.2.1) hrun'
    have e3 := congrArg (fun p => p.2.2) hrun'
    exact ⟨e1, e2, e3⟩
  have hclosed : lctx'.closed = true := by rw [← h1]
  have hcache : lctx'.cache
      = (shutdownStep hooks lctx.cache [] [] (mapKeys lctx.cache)).1 := by
    rw [← h1]
  refine ⟨?_, ?_, ?_, ?_, hclosed, ?_⟩
  · rw [← h3, hkey.1]
    simp [invCount, keyCount, hlisten]
  · intro h
    rw [hcache]
    exact hkey.2.1 (Or.inr h)
  · intro h
    rw [hcache, ← h2]
    exact (hkey.2.2.1 h)
  · intro h
    rw [hcache, ← h2]
    exact (hkey.2.2.2 h)
  · cases hk0 : decide (k0 = "") with
    | true =>
        have : k0 = "" := of_decide_eq_true hk0
        simp [GetInstance, this]
    | false =>
        have : ¬ k0 = "" := of_decide_eq_false hk0
        simp [GetInstance, this, hclosed]

theorem shutdown_listener_invoked_once_witness :
    invCount "k" (ctxShutdown (fun _ => .hookPanic) false
        ⟨"c1", [("k", .inst 3)], false⟩).2.2 = 1 ∧
    GetInstance (ctxShutdown (fun _ => .hookPanic) false
        ⟨"c1", [("k", .inst 3)], false⟩).1 "k" = none := by
  have h := shutdown_listener_invoked_once (fun _ => .hookPanic)
    ⟨"c1", [("k", .inst 3)], false⟩ "k" (.inst 3)
    (ctxShutdown (fun _ => .hookPanic) false ⟨"c1", [("k", .inst 3)], false⟩).1
    (ctxShutdown (fun _ => .hookPanic) false ⟨"c1", [("k", .inst 3)], false⟩).2.1
    (ctxShutdown (fun _ => .hookPanic) false ⟨"c1", [("k", .inst 3)], false⟩).2.2
    (by decide) (by decide) (by decide) rfl
  exact ⟨h.1, h.2.2.2.2.2⟩

/-! ## Claim theorems: circular dependencies (C3) -/

theorem mutual_cycle_tree (reg : List (String × ContainerEntry))
    (ka kb : String) (ea eb : ContainerEntry) (ta tb : GoType)
    (hka : mapGet reg ka = some ea) (hkb : mapGet reg kb = some eb)
    (hpa : ea.factoryFnParams = [tb]) (hpb : eb.factoryFnParams = [ta])
    (hta : NameOfType ta = ka) (htb : NameOfType tb = kb)
    (hne : ka ≠ kb)
    (hsa1 : ka ≠ containerReflectedKey) (hsa2 : ka ≠ lifecycleContextReflectedKey)
    (hsb1 : kb ≠ containerReflectedKey) (hsb2 : kb ≠ lifecycleContextReflectedKey) :
    getDependencyTree reg ka = .error (.circularDependency ea.serviceType.str) := by
  obtain ⟨m, hm⟩ : ∃ m, reg.length = m + 2 := by
    have hma : ka ∈ mapKeys reg := mapGet_mem_keys hka
    have hmb : kb ∈ mapKeys reg := mapGet_mem_keys hkb
    have h2 : 2 ≤ (mapKeys reg).length := two_le_length_of_mem hma hmb hne
    rw [mapKeys, List.length_map] at h2
    exact ⟨reg.length - 2, by omega⟩
  have h1 : visitKey reg (m + 1) ka [kb, ka] [] []
      = .error (.circularDependency ea.serviceType.str) := by
    rw [visitKey_succ, if_neg (by simp [hsa1, hsa2]), hka]
    simp
  have h2 : visitKey reg (m + 2) kb [ka] [] []
      = .error (.circularDependency ea.serviceType.str) := by
    rw [visitKey_succ, if_neg (by simp [hsb1, hsb2]), hkb]
    simp [hpb, hta, Ne.symm hne, visitKeys_cons, h1]
  have h3 : visitKey reg (m + 3) ka [] [] []
      = .error (.circularDependency ea.serviceType.str) := by
    rw [visitKey_succ, if_neg (by simp [hsa1, hsa2]), hka]
    simp [hpa, htb, visitKeys_cons, h2]
  have hfuel : treeFuel reg = m + 3 := by simp [treeFuel, hm]
  rw [getDependencyTree, hfuel, h3]

/-- **C3.** For two registrations whose factories declare each other as
their (sole) parameters — a mutual dependency A→B→A — `Resolve` of
either identity fails with the circular-dependency error naming the
requested service's type, the container is left unchanged, and neither
factory is invoked (empty invocation log). -/
theorem mutual_cycle_resolve (w : World) (ka kb : String)
    (ea eb : ContainerEntry) (ta tb : GoType)
    (ctxArgA ctxArgB : Option String)
    (hka : mapGet w.c.registry ka = some ea)
    (hkb : mapGet w.c.registry kb = some eb)
    (hpa : ea.factoryFnParams = [tb]) (hpb : eb.factoryFnParams = [ta])
    (hta : NameOfType ta = ka) (htb : NameOfType tb = kb)
    (hne : ka ≠ kb)
    (hsa1 : ka ≠ containerReflectedKey) (hsa2 : ka ≠ lifecycleContextReflectedKey)
    (hsb1 : kb ≠ containerReflectedKey) (hsb2 : kb ≠ lifecycleContextReflectedKey) :
    Resolve w ka ctxArgA
      = (.error (.depTreeFailed ea.serviceType.str
          (.circularDependency ea.serviceType.str)), w, []) ∧
    Resolve w kb ctxArgB
      = (.error (.depTreeFailed eb.serviceType.str
          (.circularDependency eb.serviceType.str)), w, []) := by
  have htreeA := mutual_cycle_tree w.c.registry ka kb ea eb ta tb
    hka hkb hpa hpb hta htb hne hsa1 hsa2 hsb1 hsb2
  have htreeB := mutual_cycle_tree w.c.registry kb ka eb ea tb ta
    hkb hka hpb hpa htb hta (Ne.symm hne) hsb1 hsb2 hsa1 hsa2
  constructor
  · simp [Resolve, hsa1, hsa2, hka, htreeA]
  · simp [Resolve, hsb1, hsb2, hkb, htreeB]

/-- Concrete mutually-dependent two-entry registry used as the C3 witness. -/
def cycleWorld : World :=
  { c := { registry :=
             [("pkg/A", { serviceType := .named "pkg" "A" "pkg.A",
                          key := "pkg/A",
                          factoryFnParams := [.named "pkg" "B" "pkg.B"],
                          scope := .Transient }),
              ("pkg/B", { serviceType := .named "pkg" "B" "pkg.B",
                          key := "pkg/B",
                          factoryFnParams := [.named "pkg" "A" "pkg.A"],
                          scope := .Transient })],
           lifecycleContexts := [(backgroundContextKey, NewLifecycleContext "bg")] },
    nextId := 0 }

theorem mutual_cycle_resolve_witness :
    Resolve cycleWorld "pkg/A" none
      = (.error (.depTreeFailed "pkg.A" (.circularDependency "pkg.A")),
         cycleWorld, []) := by
  exact (mutual_cycle_resolve cycleWorld "pkg/A" "pkg/B"
    { serviceType := .named "pkg" "A" "pkg.A", key := "pkg/A",
      factoryFnParams := [.named "pkg" "B" "pkg.B"], scope := .Transient }
    { serviceType := .named "pkg" "B" "pkg.B", key := "pkg/B",
      factoryFnParams := [.named "pkg" "A" "pkg.A"], scope := .Transient }
    (.named "pkg" "A" "pkg.A") (.named "pkg" "B" "pkg.B") none none
    (by decide) (by decide) (by decide) (by decide) (by decide) (by decide)
    (by decide) (by decide) (by decide) (by decide) (by decide)).1

/-! ## Resolution-state invariants (shared by C1 and C2) -/

/-- The closed flag of the context stored under `c`, if present. -/
def closedSlot (contexts : List (String × LifecycleCtx)) (c : String) :
    Option Bool :=
  (mapGet contexts c).map LifecycleCtx.closed

/-- The cache binding for service key `k` inside the context stored
under `c`, if that context is present. -/
def kSlot (k : String) (contexts : List (String × LifecycleCtx)) (c : String) :
    Option (Option Val) :=
  (mapGet contexts c).map (fun cx => mapGet cx.cache k)

/-- Every instance id cached anywhere is below the fresh-id counter. -/
def Fresh (st : ResolveSt) : Prop :=
  ∀ c cx, mapGet st.contexts c = some cx →
    ∀ kk i, mapGet cx.cache kk = some (.inst i) → i < st.nextId


theorem SetInstance_shape (lctx : LifecycleCtx) (key : String) (inst : Val)
    (r : Option DiErr) (lctx' : LifecycleCtx)
    (h : SetInstance lctx key inst = (r, lctx')) :
    (r.isSome = true ∧ lctx' = lctx) ∨
    (r = none ∧ key ≠ "" ∧ lctx.closed = false ∧
     lctx' = { lctx with cache := mapSet lctx.cache key inst }) := by
  unfold SetInstance at h
  by_cases hk : key = ""
  · rw [if_pos hk] at h
    obtain ⟨hr, hl⟩ := Prod.mk.inj h
    exact Or.inl ⟨by rw [← hr]; rfl, hl.symm⟩
  · rw [if_neg hk] at h
    by_cases hc : lctx.closed = true
    · rw [if_pos hc] at h
      obtain ⟨hr, hl⟩ := Prod.mk.inj h
      exact Or.inl ⟨by rw [← hr]; rfl, hl.symm⟩
    · rw [if_neg hc] at h
      obtain ⟨hr, hl⟩ := Prod.mk.inj h
      have hcl : lctx.closed = false := by simpa using hc
      exact Or.inr ⟨hr.symm, hk, hcl, hl.symm⟩

theorem persistInstance_shape (contexts : List (String × LifecycleCtx))
    (ctxKey : String) (entry : ContainerEntry) (inst : Val)
    (r : Option DiErr) (cs : List (String × LifecycleCtx))
    (h : persistInstance contexts ctxKey entry inst = (r, cs)) :
    cs = contexts ∨
    (r = none ∧ ∃ c cx, mapGet contexts c = some cx ∧ cx.closed = false ∧
       entry.key ≠ "" ∧
       cs = mapSet contexts c { cx with cache := mapSet cx.cache entry.key inst }) := by
  unfold persistInstance at h
  split at h
  · -- Singleton
    split at h
    · -- no background context
      exact Or.inl (Prod.mk.inj h).2.symm
    · rename_i bg hbg
      split at h
      · -- already cached, no write
        exact Or.inl (Prod.mk.inj h).2.symm
      · split at h
        · -- SetInstance failed
          exact Or.inl (Prod.mk.inj h).2.symm
        · rename_i bg' hset
          rcases SetInstance_shape bg entry.key inst none bg' hset with
            ⟨habs, _⟩ | ⟨_, hkey, hcl, hbg'⟩
          · simp at habs
          · obtain ⟨hr, hcs⟩ := Prod.mk.inj h
            refine Or.inr ⟨hr.symm, backgroundContextKey, bg, hbg, hcl, hkey, ?_⟩
            rw [← hcs, hbg']
  · -- Scoped
    split at h
    · -- context not tracked
      exact Or.inl (Prod.mk.inj h).2.symm
    · rename_i cx hcx
      split at h
      · -- SetInstance failed
        exact Or.inl (Prod.mk.inj h).2.symm
      · rename_i cx' hset
        rcases SetInstance_shape cx entry.key inst none cx' hset with
          ⟨habs, _⟩ | ⟨_, hkey, hcl, hcx'⟩
        · simp at habs
        · obtain ⟨hr, hcs⟩ := Prod.mk.inj h
          refine Or.inr ⟨hr.symm, ctxKey, cx, hcx, hcl, hkey, ?_⟩
          rw [← hcs, hcx']
  · -- Transient
    exact Or.inl (Prod.mk.inj h).2.symm

theorem resolveOne_shape (ctxKey : String) (entry : ContainerEntry)
    (st : ResolveSt) (r : Option DiErr) (st' : ResolveSt)
    (h : resolveOne ctxKey entry st = (r, st')) :
    (st'.contexts = st.contexts ∧ st'.nextId = st.nextId ∧ st'.log = st.log ∧
       (st'.resolved = st.resolved ∨
        ∃ v, st'.resolved = mapSet st.resolved entry.key v)) ∨
    (st'.nextId = st.nextId + 1 ∧ st'.log = st.log ++ [entry.key] ∧
       (st'.resolved = st.resolved ∨
        ∃ v, st'.resolved = mapSet st.resolved entry.key v) ∧
       (st'.contexts = st.contexts ∨
        ∃ c cx, mapGet st.contexts c = some cx ∧ cx.closed = false ∧
          entry.key ≠ "" ∧
          st'.contexts = mapSet st.contexts c
            { cx with cache := mapSet cx.cache entry.key (Val.inst st.nextId) })) := by
  unfold resolveOne at h
  split at h
  · -- synthesized lifecycle-context key
    obtain ⟨hr, hst⟩ := Prod.mk.inj h
    subst hst
    exact Or.inl ⟨rfl, rfl, rfl, Or.inr ⟨_, rfl⟩⟩
  · split at h
    · -- synthesized container key
      obtain ⟨hr, hst⟩ := Prod.mk.inj h
      subst hst
      exact Or.inl ⟨rfl, rfl, rfl, Or.inr ⟨_, rfl⟩⟩
    · split at h
      · -- cache hit
        obtain ⟨hr, hst⟩ := Prod.mk.inj h
        subst hst
        exact Or.inl ⟨rfl, rfl, rfl, Or.inr ⟨_, rfl⟩⟩
      · split at h
        · -- missing factory parameter: state unchanged
          obtain ⟨hr, hst⟩ := Prod.mk.inj h
          subst hst
          exact Or.inl ⟨rfl, rfl, rfl, Or.inl rfl⟩
        · -- factory invoked
          dsimp only at h
          split at h
          · -- persist failed: counter and log advanced, contexts kept
            obtain ⟨hr, hst⟩ := Prod.mk.inj h
            subst hst
            exact Or.inr ⟨rfl, rfl, Or.inl rfl, Or.inl rfl⟩
          · -- persist succeeded
            rename_i cs hper
            rcases persistInstance_shape st.contexts ctxKey entry
                (Val.inst st.nextId) none cs hper with
              hsame | ⟨_, c, cx, hc, hcl, hkey, hcs⟩
            · obtain ⟨hr, hst⟩ := Prod.mk.inj h
              subst hst
              exact Or.inr ⟨rfl, rfl, Or.inr ⟨_, rfl⟩, Or.inl hsame⟩
            · obtain ⟨hr, hst⟩ := Prod.mk.inj h
              subst hst
              exact Or.inr ⟨rfl, rfl, Or.inr ⟨_, rfl⟩,
                Or.inr ⟨c, cx, hc, hcl, hkey, hcs⟩⟩

theorem closedSlot_write (contexts : List (String × LifecycleCtx))
    (c0 : String) (cx : LifecycleCtx) (cache' : List (String × Val))
    (hc0 : mapGet contexts c0 = some cx) :
    ∀ c, closedSlot (mapSet contexts c0 { cx with cache := cache' }) c
        = closedSlot contexts c := by
  intro c
  by_cases hc : c = c0
  · subst hc
    simp [closedSlot, mapGet_set_self, hc0]
  · simp [closedSlot, mapGet_set_ne contexts c0 c _ (fun h => hc h.symm)]

theorem resolveOne_closedSlot (ctxKey : String) (entry : ContainerEntry)
    (st : ResolveSt) (r : Option DiErr) (st' : ResolveSt)
    (h : resolveOne ctxKey entry st = (r, st')) :
    ∀ c, closedSlot st'.contexts c = closedSlot st.contexts c := by
  intro c
  rcases resolveOne_shape ctxKey entry st r st' h with
    ⟨hcs, _, _, _⟩ | ⟨_, _, _, hcs | ⟨c0, cx, hc0, _, _, hcs⟩⟩
  · rw [hcs]
  · rw [hcs]
  · rw [hcs]
    exact closedSlot_write st.contexts c0 cx _ hc0 c

theorem kSlot_write_ne (k : String) (contexts : List (String × LifecycleCtx))
    (c0 : String) (cx : LifecycleCtx) (kk : String) (v : Val)
    (hc0 : mapGet contexts c0 = some cx) (hkk : kk ≠ k) :
    ∀ c, kSlot k (mapSet contexts c0
        { cx with cache := mapSet cx.cache kk v }) c = kSlot k contexts c := by
  intro c
  by_cases hc : c = c0
  · subst hc
    simp [kSlot, mapGet_set_self, hc0, mapGet_set_ne cx.cache kk k v hkk]
  · simp [kSlot, mapGet_set_ne contexts c0 c _ (fun h => hc h.symm)]

theorem resolveOne_kSlot (k : String) (ctxKey : String) (entry : ContainerEntry)
    (st : ResolveSt) (r : Option DiErr) (st' : ResolveSt)
    (hk : entry.key ≠ k)
    (h : resolveOne ctxKey entry st = (r, st')) :
    ∀ c, kSlot k st'.contexts c = kSlot k st.contexts c := by
  intro c
  rcases resolveOne_shape ctxKey entry st r st' h with
    ⟨hcs, _, _, _⟩ | ⟨_, _, _, hcs | ⟨c0, cx, hc0, _, _, hcs⟩⟩
  · rw [hcs]
  · rw [hcs]
  · rw [hcs]
    exact kSlot_write_ne k st.contexts c0 cx entry.key _ hc0 hk c

theorem resolveOne_keyCount (k : String) (ctxKey : String)
    (entry : ContainerEntry) (st : ResolveSt) (r : Option DiErr)
    (st' : ResolveSt) (hk : entry.key ≠ k)
    (h : resolveOne ctxKey entry st = (r, st')) :
    keyCount k st'.log = keyCount k st.log := by
  rcases resolveOne_shape ctxKey entry st r st' h with
    ⟨_, _, hlog, _⟩ | ⟨_, hlog, _, _⟩
  · rw [hlog]
  · simp [hlog, keyCount_append, keyCount_single_ne k entry.key hk]

theorem resolveOne_resolvedGet (k : String) (ctxKey : String)
    (entry : ContainerEntry) (st : ResolveSt) (r : Option DiErr)
    (st' : ResolveSt) (hk : entry.key ≠ k)
    (h : resolveOne ctxKey entry st = (r, st')) :
    mapGet st'.resolved k = mapGet st.resolved k := by
  rcases resolveOne_shape ctxKey entry st r st' h with
    ⟨_, _, _, hres | ⟨v, hres⟩⟩ | ⟨_, _, hres | ⟨v, hres⟩, _⟩
  · rw [hres]
  · rw [hres, mapGet_set_ne st.resolved entry.key k v hk]
  · rw [hres]
  · rw [hres, mapGet_set_ne st.resolved entry.key k v hk]

theorem resolveOne_nextId_le (ctxKey : String) (entry : ContainerEntry)
    (st : ResolveSt) (r : Option DiErr) (st' : ResolveSt)
    (h : resolveOne ctxKey entry st = (r, st')) :
    st.nextId ≤ st'.nextId := by
  rcases resolveOne_shape ctxKey entry st r st' h with
    ⟨_, hn, _, _⟩ | ⟨hn, _, _, _⟩ <;> omega

theorem resolveOne_fresh (ctxKey : String) (entry : ContainerEntry)
    (st : ResolveSt) (r : Option DiErr) (st' : ResolveSt)
    (h : resolveOne ctxKey entry st = (r, st'))
    (hf : Fresh st) : Fresh st' := by
  rcases resolveOne_shape ctxKey entry st r st' h with
    ⟨hcs, hn, _, _⟩ | ⟨hn, _, _, hcs | ⟨c0, cx, hc0, _, _, hcs⟩⟩
  · intro c cx hc kk i hkk
    rw [hcs] at hc
    rw [hn]
    exact hf c cx hc kk i hkk
  · intro c cx hc kk i hkk
    rw [hcs] at hc
    rw [hn]
    exact Nat.lt_succ_of_lt (hf c cx hc kk i hkk)
  · intro c cx' hc kk i hkk
    rw [hcs] at hc
    rw [hn]
    by_cases hcc : c = c0
    · subst hcc
      rw [mapGet_set_self] at hc
      obtain rfl : cx' = { cx with cache := mapSet cx.cache entry.key (Val.inst st.nextId) } :=
        (Option.some.inj hc).symm
      rcases mapGet_set_cases hkk with ⟨_, hv⟩ | ⟨_, hold⟩
      · have hi : i = st.nextId := by injection hv
        omega
      · exact Nat.lt_succ_of_lt (hf _ cx hc0 kk i hold)
    · rw [mapGet_set_ne st.contexts c0 c _ (fun hh => hcc hh.symm)] at hc
      exact Nat.lt_succ_of_lt (hf c cx' hc kk i hkk)

/-! ## Well-formed registries and soundness of the dependency order -/

/-- Every registry binding's entry records its own key — an invariant
`Register` establishes (it stores `key` in the entry it creates). -/
def WfRegistry (reg : List (String × ContainerEntry)) : Prop :=
  ∀ kk e, mapGet reg kk = some e → e.key = kk

/-- `Register` preserves registry well-formedness. -/
theorem register_wf (assignable : GoType → GoType → Bool) (c : ContainerImpl)
    (serviceType : Option GoType) (key : String) (scope : LifecycleScope)
    (factoryFn : Option FactoryDesc) (r : Option DiErr) (c' : ContainerImpl)
    (log : List String)
    (hwf : WfRegistry c.registry)
    (h : Register assignable c serviceType key scope factoryFn = (r, c', log)) :
    WfRegistry c'.registry := by
  unfold Register at h
  split at h
  · cases h; exact hwf
  · split at h
    · cases h; exact hwf
    · split at h
      · cases h; exact hwf
      · split at h
        · cases h; exact hwf
        · split at h
          · cases h; exact hwf
          · split at h
            · split at h
              · cases h
                intro kk e hkk
                rcases mapGet_set_cases hkk with ⟨rfl, rfl⟩ | ⟨_, hold⟩
                · rfl
                · exact hwf kk e hold
              · cases h; exact hwf
            · cases h; exact hwf

theorem visit_sound (reg : List (String × ContainerEntry))
    (hwf : WfRegistry reg) :
    ∀ fuel : Nat,
      (∀ k visiting seen order out,
        visitKey reg fuel k visiting seen order = .ok out →
        ∀ e ∈ out.2, e ∈ order ∨ e.key = containerReflectedKey ∨
          e.key = lifecycleContextReflectedKey ∨ mapGet reg e.key = some e) ∧
      (∀ ks visiting seen order out,
        visitKeys reg fuel ks visiting seen order = .ok out →
        ∀ e ∈ out.2, e ∈ order ∨ e.key = containerReflectedKey ∨
          e.key = lifecycleContextReflectedKey ∨ mapGet reg e.key = some e) := by
  intro fuel
  induction fuel with
  | zero =>
      constructor
      · intro k visiting seen order out h
        simp [visitKey] at h
      · intro ks visiting seen order out h
        cases ks with
        | nil =>
            rw [visitKeys_nil] at h
            cases h
            intro e he
            exact Or.inl he
        | cons k ks' =>
            rw [visitKeys_cons] at h
            simp [visitKey] at h
  | succ f ihf =>
      have hA : ∀ k visiting seen order out,
          visitKey reg (f + 1) k visiting seen order = .ok out →
          ∀ e ∈ out.2, e ∈ order ∨ e.key = containerReflectedKey ∨
            e.key = lifecycleContextReflectedKey ∨ mapGet reg e.key = some e := by
        intro k visiting seen order out h
        unfold visitKey at h
        split at h
        · rename_i hsp
          cases h
          intro e he
          rcases List.mem_append.mp he with he | he
          · exact Or.inl he
          · simp at he
            subst he
            rcases hsp with hsp | hsp
            · exact Or.inr (Or.inl (by simp [fakeEntry, hsp]))
            · exact Or.inr (Or.inr (Or.inl (by simp [fakeEntry, hsp])))
        · split at h
          · simp at h
          · rename_i entry hentry
            split at h
            · simp at h
            · split at h
              · cases h
                intro e he
                exact Or.inl he
              · split at h
                · simp at h
                · rename_i seen1 order1 hpair
                  cases h
                  intro e he
                  rcases List.mem_append.mp he with he | he
                  · rcases (ihf.2 _ _ _ _ _ hpair) e he with h1 | h2
                    · exact Or.inl h1
                    · exact Or.inr h2
                  · simp at he
                    subst he
                    refine Or.inr (Or.inr (Or.inr ?_))
                    rw [hwf k _ hentry]
                    exact hentry
      refine ⟨hA, ?_⟩
      intro ks
      induction ks with
      | nil =>
          intro visiting seen order out h
          rw [visitKeys_nil] at h
          cases h
          intro e he
          exact Or.inl he
      | cons k ks' ihks =>
          intro visiting seen order out h
          rw [visitKeys_cons] at h
          split at h
          · simp at h
          · rename_i seen1 order1 hk1
            intro e he
            rcases ihks _ _ _ _ h e he with h1 | h2
            · rcases hA _ _ _ _ _ hk1 e h1 with g1 | g2
              · exact Or.inl g1
              · exact Or.inr g2
            · exact Or.inr h2

theorem getDependencyTree_sound (reg : List (String × ContainerEntry))
    (hwf : WfRegistry reg) (key : String) (order : List ContainerEntry)
    (h : getDependencyTree reg key = .ok order) :
    ∀ e ∈ order, e.key = containerReflectedKey ∨
      e.key = lifecycleContextReflectedKey ∨ mapGet reg e.key = some e := by
  unfold getDependencyTree at h
  split at h
  · simp at h
  · rename_i seen0 order0 hvk
    cases h
    intro e he
    rcases (visit_sound reg hwf (treeFuel reg)).1 _ _ _ _ _ hvk e he with h1 | h2
    · simp at h1
    · exact h2

theorem resolveOne_self_singleton (ctxKey : String) (E : ContainerEntry)
    (k : String) (st : ResolveSt) (r : Option DiErr) (st' : ResolveSt)
    (bg : LifecycleCtx)
    (hEk : E.key = k) (hsc : E.scope = .Singleton)
    (hk1 : k ≠ containerReflectedKey) (hk2 : k ≠ lifecycleContextReflectedKey)
    (hk0 : k ≠ "")
    (hbg : mapGet st.contexts backgroundContextKey = some bg)
    (hopen : bg.closed = false)
    (h : resolveOne ctxKey E st = (r, st')) :
    (∀ v, mapGet bg.cache k = some v →
        r = none ∧ st' = { st with resolved := mapSet st.resolved k v }) ∧
    (mapGet bg.cache k = none →
        (r.isSome = true ∧ st' = st) ∨
        (r = none ∧
         st'.contexts = mapSet st.contexts backgroundContextKey
           { bg with cache := mapSet bg.cache k (Val.inst st.nextId) } ∧
         st'.nextId = st.nextId + 1 ∧ st'.log = st.log ++ [k] ∧
         st'.resolved = mapSet st.resolved k (Val.inst st.nextId))) := by
  have hloadEq : loadInstance st.contexts ctxKey E = mapGet bg.cache k := by
    simp [loadInstance, hsc, hEk, hbg, GetInstance, hk0, hopen]
  unfold resolveOne at h
  split at h
  · rename_i habs
    rw [hEk] at habs
    exact absurd habs hk2
  · split at h
    · rename_i habs
      rw [hEk] at habs
      exact absurd habs hk1
    · split at h
      · rename_i cached hload
        rw [hloadEq] at hload
        cases h
        constructor
        · intro v hv
          rw [hload] at hv
          obtain rfl : cached = v := Option.some.inj hv
          exact ⟨rfl, by rw [hEk]⟩
        · intro hnone
          rw [hload] at hnone
          simp at hnone
      · rename_i hloadN
        rw [hloadEq] at hloadN
        split at h
        · rename_i missing hmiss
          cases h
          constructor
          · intro v hv
            rw [hloadN] at hv
            simp at hv
          · intro _
            exact Or.inl ⟨rfl, rfl⟩
        · rename_i hmissN
          have hperEq : persistInstance st.contexts ctxKey E (Val.inst st.nextId)
              = (none, mapSet st.contexts backgroundContextKey
                  { bg with cache := mapSet bg.cache k (Val.inst st.nextId) }) := by
            simp [persistInstance, hsc, hEk, hbg, GetInstance, hk0, hopen,
              hloadN, SetInstance]
          dsimp only at h
          split at h
          · rename_i hper
            rw [hperEq] at hper
            simp at hper
          · rename_i cs hper
            rw [hperEq] at hper
            obtain ⟨_, hcs⟩ := Prod.mk.inj hper
            cases h
            constructor
            · intro v hv
              rw [hloadN] at hv
              simp at hv
            · intro _
              refine Or.inr ⟨rfl, ?_, rfl, ?_, ?_⟩
              · rw [← hcs]
              · rw [hEk]
              · rw [hEk]

/-- The background context is live and has no cached instance for `k`. -/
def C1Pre (k : String) (contexts : List (String × LifecycleCtx)) : Prop :=
  ∃ bg, mapGet contexts backgroundContextKey = some bg ∧
    bg.closed = false ∧ mapGet bg.cache k = none

/-- The background context is live and caches `v` for `k`. -/
def C1Inv (k : String) (v : Val) (contexts : List (String × LifecycleCtx)) : Prop :=
  ∃ bg, mapGet contexts backgroundContextKey = some bg ∧
    bg.closed = false ∧ mapGet bg.cache k = some v

theorem C1Pre_iff_slots (k : String) (contexts : List (String × LifecycleCtx)) :
    C1Pre k contexts ↔
      kSlot k contexts backgroundContextKey = some none ∧
      closedSlot contexts backgroundContextKey = some false := by
  constructor
  · rintro ⟨bg, hbg, hopen, hnone⟩
    simp [kSlot, closedSlot, hbg, hopen, hnone]
  · rintro ⟨h1, h2⟩
    cases hbg : mapGet contexts backgroundContextKey with
    | none => simp [kSlot, hbg] at h1
    | some bg =>
        simp [kSlot, hbg] at h1
        simp [closedSlot, hbg] at h2
        exact ⟨bg, hbg, h2, h1⟩

theorem C1Inv_iff_slots (k : String) (v : Val)
    (contexts : List (String × LifecycleCtx)) :
    C1Inv k v contexts ↔
      kSlot k contexts backgroundContextKey = some (some v) ∧
      closedSlot contexts backgroundContextKey = some false := by
  constructor
  · rintro ⟨bg, hbg, hopen, hsome⟩
    simp [kSlot, closedSlot, hbg, hopen, hsome]
  · rintro ⟨h1, h2⟩
    cases hbg : mapGet contexts backgroundContextKey with
    | none => simp [kSlot, hbg] at h1
    | some bg =>
        simp [kSlot, hbg] at h1
        simp [closedSlot, hbg] at h2
        exact ⟨bg, hbg, h2, h1⟩

theorem resolveDeps_c1 (ctxKey k : String) (E : ContainerEntry)
    (hEk : E.key = k) (hsc : E.scope = .Singleton)
    (hk1 : k ≠ containerReflectedKey) (hk2 : k ≠ lifecycleContextReflectedKey)
    (hk0 : k ≠ "") :
    ∀ (order : List ContainerEntry), (∀ e ∈ order, e.key = k → e = E) →
    ∀ st r st', resolveDeps ctxKey order st = (r, st') →
    ( (C1Pre k st.contexts ∧ mapGet st.resolved k = none) →
        ( (C1Pre k st'.contexts ∧ mapGet st'.resolved k = none ∧
           keyCount k st'.log = keyCount k st.log) ∨
          (∃ v, C1Inv k v st'.contexts ∧ mapGet st'.resolved k = some v ∧
           keyCount k st'.log = keyCount k st.log + 1) ) ) ∧
    ( ∀ v, C1Inv k v st.contexts →
        (mapGet st.resolved k = none ∨ mapGet st.resolved k = some v) →
        C1Inv k v st'.contexts ∧
        (mapGet st'.resolved k = mapGet st.resolved k ∨
         mapGet st'.resolved k = some v) ∧
        keyCount k st'.log = keyCount k st.log ) := by
  intro order
  induction order with
  | nil =>
      intro hord st r st' h
      rw [resolveDeps] at h
      cases h
      constructor
      · rintro ⟨hpre, hres⟩
        exact Or.inl ⟨hpre, hres, rfl⟩
      · intro v hinv hres
        exact ⟨hinv, Or.inl rfl, rfl⟩
  | cons e es ih =>
      intro hord st r st' h
      have horde : ∀ e' ∈ es, e'.key = k → e' = E :=
        fun e' he' => hord e' (List.mem_cons_of_mem e he')
      rw [resolveDeps] at h
      split at h
      · -- the head entry failed: everything stops at st1
        rename_i err st1 hone
        obtain ⟨hr, hst⟩ := Prod.mk.inj h
        subst hr
        subst hst
        constructor
        · rintro ⟨hpre, hres⟩
          by_cases hek : e.key = k
          · have heE : e = E := hord e (List.mem_cons_self e es) hek
            rw [heE] at hone
            obtain ⟨bg, hbg, hopen, hnone⟩ := hpre
            have hself := resolveOne_self_singleton ctxKey E k st (some err) st1
              bg hEk hsc hk1 hk2 hk0 hbg hopen hone
            rcases hself.2 hnone with ⟨_, rfl⟩ | ⟨habs, _⟩
            · exact Or.inl ⟨⟨bg, hbg, hopen, hnone⟩, hres, rfl⟩
            · simp at habs
          · have hks := resolveOne_kSlot k ctxKey e st (some err) st1 hek hone
            have hkc := resolveOne_closedSlot ctxKey e st (some err) st1 hone
            have hresg := resolveOne_resolvedGet k ctxKey e st (some err) st1 hek hone
            have hlog := resolveOne_keyCount k ctxKey e st (some err) st1 hek hone
            refine Or.inl ⟨?_, by rw [hresg]; exact hres, hlog⟩
            rw [C1Pre_iff_slots] at hpre ⊢
            rw [hks backgroundContextKey, hkc backgroundContextKey]
            exact hpre
        · intro v hinv hres
          by_cases hek : e.key = k
          · have heE : e = E := hord e (List.mem_cons_self e es) hek
            rw [heE] at hone
            obtain ⟨bg, hbg, hopen, hsome⟩ := hinv
            have hself := resolveOne_self_singleton ctxKey E k st (some err) st1
              bg hEk hsc hk1 hk2 hk0 hbg hopen hone
            exact absurd (hself.1 v hsome).1 (by simp)
          · have hks := resolveOne_kSlot k ctxKey e st (some err) st1 hek hone
            have hkc := resolveOne_closedSlot ctxKey e st (some err) st1 hone
            have hresg := resolveOne_resolvedGet k ctxKey e st (some err) st1 hek hone
            have hlog := resolveOne_keyCount k ctxKey e st (some err) st1 hek hone
            refine ⟨?_, Or.inl hresg, hlog⟩
            rw [C1Inv_iff_slots] at hinv ⊢
            rw [hks backgroundContextKey, hkc backgroundContextKey]
            exact hinv
      · -- the head entry succeeded with state st1; continue with the tail
        rename_i st1 hone
        have IH := ih horde st1 r st' h
        constructor
        · rintro ⟨hpre, hres⟩
          by_cases hek : e.key = k
          · have heE : e = E := hord e (List.mem_cons_self e es) hek
            rw [heE] at hone
            obtain ⟨bg, hbg, hopen, hnone⟩ := hpre
            have hself := resolveOne_self_singleton ctxKey E k st none st1
              bg hEk hsc hk1 hk2 hk0 hbg hopen hone
            rcases hself.2 hnone with ⟨habs, _⟩ | ⟨_, hcs, hnid, hlog, hresv⟩
            · simp at habs
            · have hinv1 : C1Inv k (Val.inst st.nextId) st1.contexts := by
                refine ⟨{ bg with cache := mapSet bg.cache k (Val.inst st.nextId) },
                  ?_, hopen, mapGet_set_self bg.cache k (Val.inst st.nextId)⟩
                rw [hcs]
                exact mapGet_set_self st.contexts backgroundContextKey _
              have hres1 : mapGet st1.resolved k = some (Val.inst st.nextId) := by
                rw [hresv]
                exact mapGet_set_self st.resolved k _
              have ihh := IH.2 (Val.inst st.nextId) hinv1 (Or.inr hres1)
              refine Or.inr ⟨Val.inst st.nextId, ihh.1, ?_, ?_⟩
              · rcases ihh.2.1 with hh | hh
                · rw [hh, hres1]
                · exact hh
              · rw [ihh.2.2, hlog, keyCount_append, keyCount_single_eq]
          · have hks := resolveOne_kSlot k ctxKey e st none st1 hek hone
            have hkc := resolveOne_closedSlot ctxKey e st none st1 hone
            have hresg := resolveOne_resolvedGet k ctxKey e st none st1 hek hone
            have hlog := resolveOne_keyCount k ctxKey e st none st1 hek hone
            have hpre1 : C1Pre k st1.contexts := by
              rw [C1Pre_iff_slots] at hpre ⊢
              rw [hks backgroundContextKey, hkc backgroundContextKey]
              exact hpre
            have hres1 : mapGet st1.resolved k = none := by rw [hresg]; exact hres
            rcases IH.1 ⟨hpre1, hres1⟩ with ⟨p, q, cnt⟩ | ⟨v, iv, rv, cnt⟩
            · exact Or.inl ⟨p, q, by rw [cnt, hlog]⟩
            · exact Or.inr ⟨v, iv, rv, by rw [cnt, hlog]⟩
        · intro v hinv hres
          by_cases hek : e.key = k
          · have heE : e = E := hord e (List.mem_cons_self e es) hek
            rw [heE] at hone
            obtain ⟨bg, hbg, hopen, hsome⟩ := hinv
            have hself := resolveOne_self_singleton ctxKey E k st none st1
              bg hEk hsc hk1 hk2 hk0 hbg hopen hone
            obtain ⟨_, hst1⟩ := hself.1 v hsome
            have hinv1 : C1Inv k v st1.contexts := by
              rw [hst1]
              exact ⟨bg, hbg, hopen, hsome⟩
            have hres1 : mapGet st1.resolved k = some v := by
              rw [hst1]
              exact mapGet_set_self st.resolved k v
            have ihh := IH.2 v hinv1 (Or.inr hres1)
            refine ⟨ihh.1, Or.inr ?_, ?_⟩
            · rcases ihh.2.1 with hh | hh
              · rw [hh, hres1]
              · exact hh
            · rw [ihh.2.2, hst1]
          · have hks := resolveOne_kSlot k ctxKey e st none st1 hek hone
            have hkc := resolveOne_closedSlot ctxKey e st none st1 hone
            have hresg := resolveOne_resolvedGet k ctxKey e st none st1 hek hone
            have hlog := resolveOne_keyCount k ctxKey e st none st1 hek hone
            have hinv1 : C1Inv k v st1.contexts := by
              rw [C1Inv_iff_slots] at hinv ⊢
              rw [hks backgroundContextKey, hkc backgroundContextKey]
              exact hinv
            have hres1 : mapGet st1.resolved k = none ∨
                mapGet st1.resolved k = some v := by
              rw [hresg]; exact hres
            have ihh := IH.2 v hinv1 hres1
            refine ⟨ihh.1, ?_, by rw [ihh.2.2, hlog]⟩
            rcases ihh.2.1 with hh | hh
            · exact Or.inl (by rw [hh, hresg])
            · exact Or.inr hh

theorem Resolve_singleton (w : World) (k : String) (E : ContainerEntry)
    (hwf : WfRegistry w.c.registry)
    (hreg : mapGet w.c.registry k = some E)
    (hsc : E.scope = .Singleton)
    (hk1 : k ≠ containerReflectedKey) (hk2 : k ≠ lifecycleContextReflectedKey)
    (hk0 : k ≠ "")
    (ctxArg : Option String) (res : Except DiErr Val) (w' : World)
    (log : List String)
    (h : Resolve w k ctxArg = (res, w', log)) :
    w'.c.registry = w.c.registry ∧
    (C1Pre k w.c.lifecycleContexts →
        ∀ u, res = .ok u →
          C1Inv k u w'.c.lifecycleContexts ∧ keyCount k log = 1) ∧
    (∀ v, C1Inv k v w.c.lifecycleContexts →
        (∀ u, res = .ok u → u = v) ∧ C1Inv k v w'.c.lifecycleContexts ∧
        keyCount k log = 0) := by
  have hEk : E.key = k := hwf k E hreg
  unfold Resolve at h
  dsimp only at h
  rw [if_neg hk1, if_neg hk2] at h
  split at h
  · rename_i hnone
    rw [hreg] at hnone
    simp at hnone
  · rename_i entry hentry
    obtain rfl : E = entry := Option.some.inj (hreg.symm.trans hentry)
    split at h
    · -- dependency-tree failure: nothing changed, no invocation
      cases h
      refine ⟨rfl, ?_, ?_⟩
      · intro _ u hu
        simp at hu
      · intro v hinv
        exact ⟨fun u hu => by simp at hu, hinv, rfl⟩
    · rename_i order htree
      have hord : ∀ e ∈ order, e.key = k → e = E := by
        intro e he hkey
        rcases getDependencyTree_sound w.c.registry hwf k order htree e he with
          h1 | h2 | h3
        · rw [hkey] at h1; exact absurd h1 hk1
        · rw [hkey] at h2; exact absurd h2 hk2
        · rw [hkey, hreg] at h3
          exact (Option.some.inj h3).symm
      split at h
      · -- some dependency failed mid-walk
        rename_i err st1 hdeps
        have hd := resolveDeps_c1 _ k E hEk hsc hk1 hk2 hk0 order hord
          ⟨w.c.lifecycleContexts, w.nextId, [], []⟩ (some err) st1 hdeps
        cases h
        refine ⟨rfl, ?_, ?_⟩
        · intro _ u hu
          simp at hu
        · intro v hinv
          have ihh := hd.2 v hinv (Or.inl rfl)
          exact ⟨fun u hu => by simp at hu, ihh.1, ihh.2.2⟩
      · rename_i st1 hdeps
        have hd := resolveDeps_c1 _ k E hEk hsc hk1 hk2 hk0 order hord
          ⟨w.c.lifecycleContexts, w.nextId, [], []⟩ none st1 hdeps
        split at h
        · -- requested key missing from the resolved map
          rename_i hresN
          cases h
          refine ⟨rfl, ?_, ?_⟩
          · intro _ u hu
            simp at hu
          · intro v hinv
            have ihh := hd.2 v hinv (Or.inl rfl)
            exact ⟨fun u hu => by simp at hu, ihh.1, ihh.2.2⟩
        · rename_i v hresV
          cases h
          refine ⟨rfl, ?_, ?_⟩
          · intro hpre u hu
            obtain rfl : v = u := Except.ok.inj hu
            rcases hd.1 ⟨hpre, rfl⟩ with ⟨_, q, _⟩ | ⟨v0, iv, rv, cnt⟩
            · rw [hresV] at q
              simp at q
            · rw [hresV] at rv
              have hv : v = v0 := Option.some.inj rv
              rw [← hv] at iv
              exact ⟨iv, by rw [cnt]; rfl⟩
          · intro v1 hinv
            have ihh := hd.2 v1 hinv (Or.inl rfl)
            refine ⟨?_, ihh.1, ihh.2.2⟩
            intro u hu
            obtain rfl : v = u := Except.ok.inj hu
            rcases ihh.2.1 with hh | hh
            · rw [hresV] at hh
              simp [mapGet] at hh
            · rw [hresV] at hh
              exact Option.some.inj hh

theorem resolveSeq_c1_inv (k : String) (E : ContainerEntry)
    (hsc : E.scope = .Singleton)
    (hk1 : k ≠ containerReflectedKey) (hk2 : k ≠ lifecycleContextReflectedKey)
    (hk0 : k ≠ "") :
    ∀ (ctxs : List (Option String)) (w : World) (v : Val)
      (w' : World) (rs : List (Except DiErr Val)) (log : List String),
      WfRegistry w.c.registry → mapGet w.c.registry k = some E →
      C1Inv k v w.c.lifecycleContexts →
      resolveSeq k w ctxs = (w', rs, log) →
      (∀ r ∈ rs, ∀ u, r = Except.ok u → u = v) ∧ keyCount k log = 0 := by
  intro ctxs
  induction ctxs with
  | nil =>
      intro w v w' rs log hwf hreg hinv h
      rw [resolveSeq] at h
      cases h
      exact ⟨by simp, rfl⟩
  | cons c cs ih =>
      intro w v w' rs log hwf hreg hinv h
      rw [resolveSeq] at h
      split at h
      rename_i r w1 log1 hres1
      split at h
      rename_i w2 rs2 logs2 hseq
      obtain ⟨hw2, hrest2⟩ := Prod.mk.inj h
      obtain ⟨hrs2, hlog2⟩ := Prod.mk.inj hrest2
      subst hw2
      subst hrs2
      subst hlog2
      have hsing := Resolve_singleton w k E hwf hreg hsc hk1 hk2 hk0 c r w1
        log1 hres1
      have hivv := hsing.2.2 v hinv
      have hwf1 : WfRegistry w1.c.registry := by rw [hsing.1]; exact hwf
      have hreg1 : mapGet w1.c.registry k = some E := by rw [hsing.1]; exact hreg
      have ihh := ih w1 v w2 rs2 logs2 hwf1 hreg1 hivv.2.1 hseq
      constructor
      · intro rr hrr u hu
        rcases List.mem_cons.mp hrr with rfl | hmem
        · exact hivv.1 u hu
        · exact ihh.1 rr hmem u hu
      · rw [keyCount_append, hivv.2.2, ihh.2]

/-- **C1.** For an identity registered with scope Singleton (non-blank,
not one of the synthesized self-injectable identities) whose background
context is live and holds no cached instance yet, any non-empty sequence
of resolutions of that identity — each from an arbitrary lifecycle
context, or with the context omitted — that all succeed returns the same
instance every time, and the identity's factory is invoked exactly once
across the whole sequence. -/
theorem singleton_resolved_once (w : World) (k : String) (E : ContainerEntry)
    (ctxs : List (Option String)) (w' : World) (rs : List (Except DiErr Val))
    (log : List String)
    (hwf : WfRegistry w.c.registry)
    (hreg : mapGet w.c.registry k = some E)
    (hsc : E.scope = .Singleton)
    (hk1 : k ≠ containerReflectedKey) (hk2 : k ≠ lifecycleContextReflectedKey)
    (hk0 : k ≠ "")
    (hpre : C1Pre k w.c.lifecycleContexts)
    (hrun : resolveSeq k w ctxs = (w', rs, log))
    (hok : ∀ r ∈ rs, ∃ u, r = Except.ok u)
    (hne : ctxs ≠ []) :
    ∃ v, (∀ r ∈ rs, r = Except.ok v) ∧ keyCount k log = 1 := by
  cases ctxs with
  | nil => exact absurd rfl hne
  | cons c cs =>
      rw [resolveSeq] at hrun
      split at hrun
      rename_i r w1 log1 hres1
      split at hrun
      rename_i w2 rs2 logs2 hseq
      obtain ⟨hw2, hrest2⟩ := Prod.mk.inj hrun
      obtain ⟨hrs2, hlog2⟩ := Prod.mk.inj hrest2
      subst hw2
      subst hrs2
      subst hlog2
      obtain ⟨u, hru⟩ := hok r (List.mem_cons_self r rs2)
      subst hru
      have hsing := Resolve_singleton w k E hwf hreg hsc hk1 hk2 hk0 c
        (Except.ok u) w1 log1 hres1
      have hstep := hsing.2.1 hpre u rfl
      have hwf1 : WfRegistry w1.c.registry := by rw [hsing.1]; exact hwf
      have hreg1 : mapGet w1.c.registry k = some E := by rw [hsing.1]; exact hreg
      have hrest := resolveSeq_c1_inv k E hsc hk1 hk2 hk0 cs w1 u w2 rs2 logs2
        hwf1 hreg1 hstep.1 hseq
      refine ⟨u, ?_, ?_⟩
      · intro rr hrr
        rcases List.mem_cons.mp hrr with rfl | hmem
        · rfl
        · obtain ⟨u', hru'⟩ := hok rr (List.mem_cons_of_mem _ hmem)
          rw [hru', hrest.1 rr hmem u' hru']
      · rw [keyCount_append, hstep.2, hrest.2]

theorem wf_single_registry (k : String) (e : ContainerEntry) (hk : e.key = k) :
    WfRegistry [(k, e)] := by
  intro kk e' h
  by_cases hkk : k = kk
  · rw [mapGet, if_pos hkk] at h
    obtain rfl : e = e' := Option.some.inj h
    rw [hk, hkk]
  · rw [mapGet, if_neg hkk] at h
    cases h

/-- Concrete one-singleton container used as the C1 witness. -/
def c1World : World :=
  { c := { registry :=
             [("pkg/A", { serviceType := .named "pkg" "A" "pkg.A",
                          key := "pkg/A", factoryFnParams := [],
                          scope := .Singleton })],
           lifecycleContexts := [(backgroundContextKey, NewLifecycleContext "bg")] },
    nextId := 0 }

theorem singleton_resolved_once_witness :
    ∃ v, (∀ r ∈ (resolveSeq "pkg/A" c1World [none, none]).2.1,
        r = Except.ok v) ∧
      keyCount "pkg/A" (resolveSeq "pkg/A" c1World [none, none]).2.2 = 1 := by
  refine singleton_resolved_once c1World "pkg/A"
    { serviceType := .named "pkg" "A" "pkg.A", key := "pkg/A",
      factoryFnParams := [], scope := .Singleton }
    [none, none] (resolveSeq "pkg/A" c1World [none, none]).1
    (resolveSeq "pkg/A" c1World [none, none]).2.1
    (resolveSeq "pkg/A" c1World [none, none]).2.2
    (wf_single_registry _ _ rfl) (by decide) rfl (by decide) (by decide)
    (by decide) ⟨NewLifecycleContext "bg", by decide, rfl, rfl⟩ rfl ?_ (by simp)
  intro r hr
  have hrs : (resolveSeq "pkg/A" c1World [none, none]).2.1
      = [Except.ok (Val.inst 0), Except.ok (Val.inst 0)] := by rfl
  rw [hrs] at hr
  simp at hr
  exact ⟨Val.inst 0, hr⟩

/-! ## Scoped resolution: per-context caching -/

/-- The context stored under `ck` is live and has no cached instance for
`k`. -/
def C2Pre (ck k : String) (contexts : List (String × LifecycleCtx)) : Prop :=
  ∃ cx, mapGet contexts ck = some cx ∧
    cx.closed = false ∧ mapGet cx.cache k = none

/-- The context stored under `ck` is live and caches `v` for `k`. -/
def C2Inv (ck k : String) (v : Val) (contexts : List (String × LifecycleCtx)) :
    Prop :=
  ∃ cx, mapGet contexts ck = some cx ∧
    cx.closed = false ∧ mapGet cx.cache k = some v

theorem C2Pre_iff_slots (ck k : String)
    (contexts : List (String × LifecycleCtx)) :
    C2Pre ck k contexts ↔
      kSlot k contexts ck = some none ∧
      closedSlot contexts ck = some false := by
  constructor
  · rintro ⟨cx, hcx, hopen, hnone⟩
    simp [kSlot, closedSlot, hcx, hopen, hnone]
  · rintro ⟨h1, h2⟩
    cases hcx : mapGet contexts ck with
    | none => simp [kSlot, hcx] at h1
    | some cx =>
        simp [kSlot, hcx] at h1
        simp [closedSlot, hcx] at h2
        exact ⟨cx, hcx, h2, h1⟩

theorem C2Inv_iff_slots (ck k : String) (v : Val)
    (contexts : List (String × LifecycleCtx)) :
    C2Inv ck k v contexts ↔
      kSlot k contexts ck = some (some v) ∧
      closedSlot contexts ck = some false := by
  constructor
  · rintro ⟨cx, hcx, hopen, hsome⟩
    simp [kSlot, closedSlot, hcx, hopen, hsome]
  · rintro ⟨h1, h2⟩
    cases hcx : mapGet contexts ck with
    | none => simp [kSlot, hcx] at h1
    | some cx =>
        simp [kSlot, hcx] at h1
        simp [closedSlot, hcx] at h2
        exact ⟨cx, hcx, h2, h1⟩

/-- A Scoped persist only ever writes the context stored under the
resolution context key; every other context binding is untouched. -/
theorem persistInstance_scoped_ne (contexts : List (String × LifecycleCtx))
    (ck : String) (entry : ContainerEntry) (inst : Val)
    (r : Option DiErr) (cs : List (String × LifecycleCtx))
    (hsc : entry.scope = .Scoped)
    (h : persistInstance contexts ck entry inst = (r, cs)) :
    ∀ c, c ≠ ck → mapGet cs c = mapGet contexts c := by
  unfold persistInstance at h
  rw [hsc] at h
  split at h
  · rename_i heq
    cases heq
  · rename_i heq
    split at h
    · cases h
      intro c hc
      rfl
    · rename_i cx hcx
      split at h
      · cases h
        intro c hc
        rfl
      · rename_i cx' hset
        cases h
        intro c hc
        exact mapGet_set_ne contexts ck c cx' (fun hh => hc hh.symm)
  · rename_i heq
    cases heq

/-- Resolving a Scoped entry never changes the key's cache slot in any
context other than the resolution context. -/
theorem resolveOne_scoped_kSlot (ck : String) (E : ContainerEntry)
    (k : String) (st : ResolveSt) (r : Option DiErr) (st' : ResolveSt)
    (hEk : E.key = k) (hsc : E.scope = .Scoped)
    (h : resolveOne ck E st = (r, st')) :
    ∀ c, c ≠ ck → kSlot k st'.contexts c = kSlot k st.contexts c := by
  unfold resolveOne at h
  split at h
  · cases h
    intro c hc
    rfl
  · split at h
    · cases h
      intro c hc
      rfl
    · split at h
      · cases h
        intro c hc
        rfl
      · split at h
        · cases h
          intro c hc
          rfl
        · dsimp only at h
          split at h
          · cases h
            intro c hc
            rfl
          · rename_i cs hper
            cases h
            intro c hc
            have := persistInstance_scoped_ne st.contexts ck E
              (Val.inst st.nextId) none cs hsc hper c hc
            simp [kSlot, this]

/-- Behaviour of `resolveDependencies`'s loop body on the Scoped entry
being resolved, when the resolution context is tracked and live: a cache
hit returns the cached instance without touching anything else; a miss
either fails with the state unchanged or invokes the factory once,
persisting the fresh instance into the resolution context only. -/
theorem resolveOne_self_scoped (ck : String) (E : ContainerEntry)
    (k : String) (st : ResolveSt) (r : Option DiErr) (st' : ResolveSt)
    (cx : LifecycleCtx)
    (hEk : E.key = k) (hsc : E.scope = .Scoped)
    (hk1 : k ≠ containerReflectedKey) (hk2 : k ≠ lifecycleContextReflectedKey)
    (hk0 : k ≠ "")
    (hcx : mapGet st.contexts ck = some cx)
    (hopen : cx.closed = false)
    (h : resolveOne ck E st = (r, st')) :
    (∀ v, mapGet cx.cache k = some v →
        r = none ∧ st' = { st with resolved := mapSet st.resolved k v }) ∧
    (mapGet cx.cache k = none →
        (r.isSome = true ∧ st' = st) ∨
        (r = none ∧
         st'.contexts = mapSet st.contexts ck
           { cx with cache := mapSet cx.cache k (Val.inst st.nextId) } ∧
         st'.nextId = st.nextId + 1 ∧ st'.log = st.log ++ [k] ∧
         st'.resolved = mapSet st.resolved k (Val.inst st.nextId))) := by
  have hloadEq : loadInstance st.contexts ck E = mapGet cx.cache k := by
    simp [loadInstance, hsc, hEk, hcx, GetInstance, hk0, hopen]
  unfold resolveOne at h
  split at h
  · rename_i habs
    rw [hEk] at habs
    exact absurd habs hk2
  · split at h
    · rename_i habs
      rw [hEk] at habs
      exact absurd habs hk1
    · split at h
      · rename_i cached hload
        rw [hloadEq] at hload
        cases h
        constructor
        · intro v hv
          rw [hload] at hv
          obtain rfl : cached = v := Option.some.inj hv
          exact ⟨rfl, by rw [hEk]⟩
        · intro hnone
          rw [hload] at hnone
          simp at hnone
      · rename_i hloadN
        rw [hloadEq] at hloadN
        split at h
        · rename_i missing hmiss
          cases h
          constructor
          · intro v hv
            rw [hloadN] at hv
            simp at hv
          · intro _
            exact Or.inl ⟨rfl, rfl⟩
        · rename_i hmissN
          have hperEq : persistInstance st.contexts ck E (Val.inst st.nextId)
              = (none, mapSet st.contexts ck
                  { cx with cache := mapSet cx.cache k (Val.inst st.nextId) }) := by
            simp [persistInstance, hsc, hEk, hcx, SetInstance, hk0, hopen]
          dsimp only at h
          split at h
          · rename_i hper
            rw [hperEq] at hper
            simp at hper
          · rename_i cs hper
            rw [hperEq] at hper
            obtain ⟨_, hcs⟩ := Prod.mk.inj hper
            cases h
            constructor
            · intro v hv
              rw [hloadN] at hv
              simp at hv
            · intro _
              refine Or.inr ⟨rfl, ?_, rfl, ?_, ?_⟩
              · rw [← hcs]
              · rw [hEk]
              · rw [hEk]

theorem resolveDeps_nextId_le (ck : String) :
    ∀ (order : List ContainerEntry) (st : ResolveSt) (r : Option DiErr)
      (st' : ResolveSt), resolveDeps ck order st = (r, st') →
      st.nextId ≤ st'.nextId := by
  intro order
  induction order with
  | nil =>
      intro st r st' h
      rw [resolveDeps] at h
      cases h
      exact Nat.le_refl _
  | cons e es ih =>
      intro st r st' h
      rw [resolveDeps] at h
      split at h
      · rename_i err st1 hone
        obtain ⟨_, hst⟩ := Prod.mk.inj h
        subst hst
        exact resolveOne_nextId_le ck e st (some err) st1 hone
      · rename_i st1 hone
        exact Nat.le_trans (resolveOne_nextId_le ck e st none st1 hone)
          (ih st1 r st' h)

theorem resolveDeps_fresh (ck : String) :
    ∀ (order : List ContainerEntry) (st : ResolveSt) (r : Option DiErr)
      (st' : ResolveSt), resolveDeps ck order st = (r, st') →
      Fresh st → Fresh st' := by
  intro order
  induction order with
  | nil =>
      intro st r st' h hf
      rw [resolveDeps] at h
      cases h
      exact hf
  | cons e es ih =>
      intro st r st' h hf
      rw [resolveDeps] at h
      split at h
      · rename_i err st1 hone
        obtain ⟨_, hst⟩ := Prod.mk.inj h
        subst hst
        exact resolveOne_fresh ck e st (some err) st1 hone hf
      · rename_i st1 hone
        exact ih st1 r st' h (resolveOne_fresh ck e st none st1 hone hf)

theorem resolveDeps_closedSlot (ck : String) :
    ∀ (order : List ContainerEntry) (st : ResolveSt) (r : Option DiErr)
      (st' : ResolveSt), resolveDeps ck order st = (r, st') →
      ∀ c, closedSlot st'.contexts c = closedSlot st.contexts c := by
  intro order
  induction order with
  | nil =>
      intro st r st' h c
      rw [resolveDeps] at h
      cases h
      rfl
  | cons e es ih =>
      intro st r st' h c
      rw [resolveDeps] at h
      split at h
      · rename_i err st1 hone
        obtain ⟨_, hst⟩ := Prod.mk.inj h
        subst hst
        exact resolveOne_closedSlot ck e st (some err) st1 hone c
      · rename_i st1 hone
        rw [ih st1 r st' h c]
        exact resolveOne_closedSlot ck e st none st1 hone c

/-- When every entry of the walk for the key `k` is the Scoped entry `E`,
the walk never changes `k`'s cache slot in a context other than the
resolution context. -/
theorem resolveDeps_kSlot_ne (ck k : String) (E : ContainerEntry)
    (hEk : E.key = k) (hsc : E.scope = .Scoped) :
    ∀ (order : List ContainerEntry), (∀ e ∈ order, e.key = k → e = E) →
    ∀ (st : ResolveSt) (r : Option DiErr) (st' : ResolveSt),
      resolveDeps ck order st = (r, st') →
      ∀ c, c ≠ ck → kSlot k st'.contexts c = kSlot k st.contexts c := by
  intro order
  induction order with
  | nil =>
      intro _ st r st' h c hc
      rw [resolveDeps] at h
      cases h
      rfl
  | cons e es ih =>
      intro hord st r st' h c hc
      have horde : ∀ e' ∈ es, e'.key = k → e' = E :=
        fun e' he' => hord e' (List.mem_cons_of_mem e he')
      have hstep : ∀ (rr : Option DiErr) (st1 : ResolveSt),
          resolveOne ck e st = (rr, st1) →
          kSlot k st1.contexts c = kSlot k st.contexts c := by
        intro rr st1 hone
        by_cases hek : e.key = k
        · have heE : e = E := hord e (List.mem_cons_self e es) hek
          rw [heE] at hone
          exact resolveOne_scoped_kSlot ck E k st rr st1 hEk hsc hone c hc
        · exact resolveOne_kSlot k ck e st rr st1 hek hone c
      rw [resolveDeps] at h
      split at h
      · rename_i err st1 hone
        obtain ⟨_, hst⟩ := Prod.mk.inj h
        subst hst
        exact hstep (some err) st1 hone
      · rename_i st1 hone
        rw [ih horde st1 r st' h c hc]
        exact hstep none st1 hone

theorem resolveDeps_c2 (ck k : String) (E : ContainerEntry)
    (hEk : E.key = k) (hsc : E.scope = .Scoped)
    (hk1 : k ≠ containerReflectedKey) (hk2 : k ≠ lifecycleContextReflectedKey)
    (hk0 : k ≠ "") :
    ∀ (order : List ContainerEntry), (∀ e ∈ order, e.key = k → e = E) →
    ∀ st r st', resolveDeps ck order st = (r, st') →
    ( (C2Pre ck k st.contexts ∧ mapGet st.resolved k = none) →
        ( (C2Pre ck k st'.contexts ∧ mapGet st'.resolved k = none ∧
           keyCount k st'.log = keyCount k st.log) ∨
          (∃ m, st.nextId ≤ m ∧ C2Inv ck k (Val.inst m) st'.contexts ∧
           mapGet st'.resolved k = some (Val.inst m) ∧
           keyCount k st'.log = keyCount k st.log + 1) ) ) ∧
    ( ∀ v, C2Inv ck k v st.contexts →
        (mapGet st.resolved k = none ∨ mapGet st.resolved k = some v) →
        C2Inv ck k v st'.contexts ∧
        (mapGet st'.resolved k = mapGet st.resolved k ∨
         mapGet st'.resolved k = some v) ∧
        keyCount k st'.log = keyCount k st.log ) := by
  intro order
  induction order with
  | nil =>
      intro hord st r st' h
      rw [resolveDeps] at h
      cases h
      constructor
      · rintro ⟨hpre, hres⟩
        exact Or.inl ⟨hpre, hres, rfl⟩
      · intro v hinv hres
        exact ⟨hinv, Or.inl rfl, rfl⟩
  | cons e es ih =>
      intro hord st r st' h
      have horde : ∀ e' ∈ es, e'.key = k → e' = E :=
        fun e' he' => hord e' (List.mem_cons_of_mem e he')
      rw [resolveDeps] at h
      split at h
      · -- the head entry failed: everything stops at st1
        rename_i err st1 hone
        obtain ⟨hr, hst⟩ := Prod.mk.inj h
        subst hr
        subst hst
        constructor
        · rintro ⟨hpre, hres⟩
          by_cases hek : e.key = k
          · have heE : e = E := hord e (List.mem_cons_self e es) hek
            rw [heE] at hone
            obtain ⟨cx, hcx, hopen, hnone⟩ := hpre
            have hself := resolveOne_self_scoped ck E k st (some err) st1
              cx hEk hsc hk1 hk2 hk0 hcx hopen hone
            rcases hself.2 hnone with ⟨_, rfl⟩ | ⟨habs, _⟩
            · exact Or.inl ⟨⟨cx, hcx, hopen, hnone⟩, hres, rfl⟩
            · simp at habs
          · have hks := resolveOne_kSlot k ck e st (some err) st1 hek hone
            have hkc := resolveOne_closedSlot ck e st (some err) st1 hone
            have hresg := resolveOne_resolvedGet k ck e st (some err) st1 hek hone
            have hlog := resolveOne_keyCount k ck e st (some err) st1 hek hone
            refine Or.inl ⟨?_, by rw [hresg]; exact hres, hlog⟩
            rw [C2Pre_iff_slots] at hpre ⊢
            rw [hks ck, hkc ck]
            exact hpre
        · intro v hinv hres
          by_cases hek : e.key = k
          · have heE : e = E := hord e (List.mem_cons_self e es) hek
            rw [heE] at hone
            obtain ⟨cx, hcx, hopen, hsome⟩ := hinv
            have hself := resolveOne_self_scoped ck E k st (some err) st1
              cx hEk hsc hk1 hk2 hk0 hcx hopen hone
            exact absurd (hself.1 v hsome).1 (by simp)
          · have hks := resolveOne_kSlot k ck e st (some err) st1 hek hone
            have hkc := resolveOne_closedSlot ck e st (some err) st1 hone
            have hresg := resolveOne_resolvedGet k ck e st (some err) st1 hek hone
            have hlog := resolveOne_keyCount k ck e st (some err) st1 hek hone
            refine ⟨?_, Or.inl hresg, hlog⟩
            rw [C2Inv_iff_slots] at hinv ⊢
            rw [hks ck, hkc ck]
            exact hinv
      · -- the head entry succeeded with state st1; continue with the tail
        rename_i st1 hone
        have IH := ih horde st1 r st' h
        constructor
        · rintro ⟨hpre, hres⟩
          by_cases hek : e.key = k
          · have heE : e = E := hord e (List.mem_cons_self e es) hek
            rw [heE] at hone
            obtain ⟨cx, hcx, hopen, hnone⟩ := hpre
            have hself := resolveOne_self_scoped ck E k st none st1
              cx hEk hsc hk1 hk2 hk0 hcx hopen hone
            rcases hself.2 hnone with ⟨habs, _⟩ | ⟨_, hcs, hnid, hlog, hresv⟩
            · simp at habs
            · have hinv1 : C2Inv ck k (Val.inst st.nextId) st1.contexts := by
                refine ⟨{ cx with cache := mapSet cx.cache k (Val.inst st.nextId) },
                  ?_, hopen, mapGet_set_self cx.cache k (Val.inst st.nextId)⟩
                rw [hcs]
                exact mapGet_set_self st.contexts ck _
              have hres1 : mapGet st1.resolved k = some (Val.inst st.nextId) := by
                rw [hresv]
                exact mapGet_set_self st.resolved k _
              have ihh := IH.2 (Val.inst st.nextId) hinv1 (Or.inr hres1)
              refine Or.inr ⟨st.nextId, Nat.le_refl _, ihh.1, ?_, ?_⟩
              · rcases ihh.2.1 with hh | hh
                · rw [hh, hres1]
                · exact hh
              · rw [ihh.2.2, hlog, keyCount_append, keyCount_single_eq]
          · have hks := resolveOne_kSlot k ck e st none st1 hek hone
            have hkc := resolveOne_closedSlot ck e st none st1 hone
            have hresg := resolveOne_resolvedGet k ck e st none st1 hek hone
            have hlog := resolveOne_keyCount k ck e st none st1 hek hone
            have hnid := resolveOne_nextId_le ck e st none st1 hone
            have hpre1 : C2Pre ck k st1.contexts := by
              rw [C2Pre_iff_slots] at hpre ⊢
              rw [hks ck, hkc ck]
              exact hpre
            have hres1 : mapGet st1.resolved k = none := by rw [hresg]; exact hres
            rcases IH.1 ⟨hpre1, hres1⟩ with ⟨p, q, cnt⟩ | ⟨m, hm, iv, rv, cnt⟩
            · exact Or.inl ⟨p, q, by rw [cnt, hlog]⟩
            · exact Or.inr ⟨m, Nat.le_trans hnid hm, iv, rv, by rw [cnt, hlog]⟩
        · intro v hinv hres
          by_cases hek : e.key = k
          · have heE : e = E := hord e (List.mem_cons_self e es) hek
            rw [heE] at hone
            obtain ⟨cx, hcx, hopen, hsome⟩ := hinv
            have hself := resolveOne_self_scoped ck E k st none st1
              cx hEk hsc hk1 hk2 hk0 hcx hopen hone
            obtain ⟨_, hst1⟩ := hself.1 v hsome
            have hinv1 : C2Inv ck k v st1.contexts := by
              rw [hst1]
              exact ⟨cx, hcx, hopen, hsome⟩
            have hres1 : mapGet st1.resolved k = some v := by
              rw [hst1]
              exact mapGet_set_self st.resolved k v
            have ihh := IH.2 v hinv1 (Or.inr hres1)
            refine ⟨ihh.1, Or.inr ?_, ?_⟩
            · rcases ihh.2.1 with hh | hh
              · rw [hh, hres1]
              · exact hh
            · rw [ihh.2.2, hst1]
          · have hks := resolveOne_kSlot k ck e st none st1 hek hone
            have hkc := resolveOne_closedSlot ck e st none st1 hone
            have hresg := resolveOne_resolvedGet k ck e st none st1 hek hone
            have hlog := resolveOne_keyCount k ck e st none st1 hek hone
            have hinv1 : C2Inv ck k v st1.contexts := by
              rw [C2Inv_iff_slots] at hinv ⊢
              rw [hks ck, hkc ck]
              exact hinv
            have hres1 : mapGet st1.resolved k = none ∨
                mapGet st1.resolved k = some v := by
              rw [hresg]; exact hres
            have ihh := IH.2 v hinv1 hres1
            refine ⟨ihh.1, ?_, by rw [ihh.2.2, hlog]⟩
            rcases ihh.2.1 with hh | hh
            · exact Or.inl (by rw [hh, hresg])
            · exact Or.inr hh

/-- Every instance id cached anywhere in the container is below the
world's fresh-id counter. -/
def WFresh (w : World) : Prop :=
  ∀ c cx, mapGet w.c.lifecycleContexts c = some cx →
    ∀ kk i, mapGet cx.cache kk = some (Val.inst i) → i < w.nextId

theorem Resolve_scoped (w : World) (k : String) (E : ContainerEntry)
    (ck : String)
    (hwf : WfRegistry w.c.registry)
    (hreg : mapGet w.c.registry k = some E)
    (hsc : E.scope = .Scoped)
    (hk1 : k ≠ containerReflectedKey) (hk2 : k ≠ lifecycleContextReflectedKey)
    (hk0 : k ≠ "")
    (res : Except DiErr Val) (w' : World) (log : List String)
    (h : Resolve w k (some ck) = (res, w', log)) :
    w'.c.registry = w.c.registry ∧
    w.nextId ≤ w'.nextId ∧
    (WFresh w → WFresh w') ∧
    (∀ c, closedSlot w'.c.lifecycleContexts c
        = closedSlot w.c.lifecycleContexts c) ∧
    (∀ c, c ≠ ck → kSlot k w'.c.lifecycleContexts c
        = kSlot k w.c.lifecycleContexts c) ∧
    (C2Pre ck k w.c.lifecycleContexts →
        ∀ u, res = .ok u →
          ∃ m, u = Val.inst m ∧ w.nextId ≤ m ∧
            C2Inv ck k u w'.c.lifecycleContexts ∧ keyCount k log = 1) ∧
    (∀ v, C2Inv ck k v w.c.lifecycleContexts →
        (∀ u, res = .ok u → u = v) ∧ C2Inv ck k v w'.c.lifecycleContexts ∧
        keyCount k log = 0) := by
  have hEk : E.key = k := hwf k E hreg
  unfold Resolve at h
  dsimp only at h
  rw [if_neg hk1, if_neg hk2] at h
  split at h
  · rename_i hnone
    rw [hreg] at hnone
    simp at hnone
  · rename_i entry hentry
    obtain rfl : E = entry := Option.some.inj (hreg.symm.trans hentry)
    split at h
    · -- dependency-tree failure: nothing changed, no invocation
      cases h
      refine ⟨rfl, Nat.le_refl _, fun hf => hf, fun c => rfl, fun c _ => rfl,
        ?_, ?_⟩
      · intro _ u hu
        simp at hu
      · intro v hinv
        exact ⟨fun u hu => by simp at hu, hinv, rfl⟩
    · rename_i order htree
      have hord : ∀ e ∈ order, e.key = k → e = E := by
        intro e he hkey
        rcases getDependencyTree_sound w.c.registry hwf k order htree e he with
          h1 | h2 | h3
        · rw [hkey] at h1; exact absurd h1 hk1
        · rw [hkey] at h2; exact absurd h2 hk2
        · rw [hkey, hreg] at h3
          exact (Option.some.inj h3).symm
      split at h
      · -- some dependency failed mid-walk
        rename_i err st1 hdeps
        have hd := resolveDeps_c2 ck k E hEk hsc hk1 hk2 hk0 order hord
          ⟨w.c.lifecycleContexts, w.nextId, [], []⟩ (some err) st1 hdeps
        have hnid := resolveDeps_nextId_le ck order
          ⟨w.c.lifecycleContexts, w.nextId, [], []⟩ (some err) st1 hdeps
        have hfr := resolveDeps_fresh ck order
          ⟨w.c.lifecycleContexts, w.nextId, [], []⟩ (some err) st1 hdeps
        have hcs := resolveDeps_closedSlot ck order
          ⟨w.c.lifecycleContexts, w.nextId, [], []⟩ (some err) st1 hdeps
        have hkn := resolveDeps_kSlot_ne ck k E hEk hsc order hord
          ⟨w.c.lifecycleContexts, w.nextId, [], []⟩ (some err) st1 hdeps
        cases h
        refine ⟨rfl, hnid, ?_, hcs, hkn, ?_, ?_⟩
        · intro hfw c cx hc kk i hkk
          exact hfr (fun c0 cx0 hc0 kk0 i0 hkk0 => hfw c0 cx0 hc0 kk0 i0 hkk0)
            c cx hc kk i hkk
        · intro _ u hu
          simp at hu
        · intro v hinv
          have ihh := hd.2 v hinv (Or.inl rfl)
          exact ⟨fun u hu => by simp at hu, ihh.1, ihh.2.2⟩
      · rename_i st1 hdeps
        have hd := resolveDeps_c2 ck k E hEk hsc hk1 hk2 hk0 order hord
          ⟨w.c.lifecycleContexts, w.nextId, [], []⟩ none st1 hdeps
        have hnid := resolveDeps_nextId_le ck order
          ⟨w.c.lifecycleContexts, w.nextId, [], []⟩ none st1 hdeps
        have hfr := resolveDeps_fresh ck order
          ⟨w.c.lifecycleContexts, w.nextId, [], []⟩ none st1 hdeps
        have hcs := resolveDeps_closedSlot ck order
          ⟨w.c.lifecycleContexts, w.nextId, [], []⟩ none st1 hdeps
        have hkn := resolveDeps_kSlot_ne ck k E hEk hsc order hord
          ⟨w.c.lifecycleContexts, w.nextId, [], []⟩ none st1 hdeps
        split at h
        · -- requested key missing from the resolved map
          rename_i hresN
          cases h
          refine ⟨rfl, hnid, ?_, hcs, hkn, ?_, ?_⟩
          · intro hfw c cx hc kk i hkk
            exact hfr (fun c0 cx0 hc0 kk0 i0 hkk0 => hfw c0 cx0 hc0 kk0 i0 hkk0)
              c cx hc kk i hkk
          · intro _ u hu
            simp at hu
          · intro v hinv
            have ihh := hd.2 v hinv (Or.inl rfl)
            exact ⟨fun u hu => by simp at hu, ihh.1, ihh.2.2⟩
        · rename_i v hresV
          cases h
          refine ⟨rfl, hnid, ?_, hcs, hkn, ?_, ?_⟩
          · intro hfw c cx hc kk i hkk
            exact hfr (fun c0 cx0 hc0 kk0 i0 hkk0 => hfw c0 cx0 hc0 kk0 i0 hkk0)
              c cx hc kk i hkk
          · intro hpre u hu
            obtain rfl : v = u := Except.ok.inj hu
            rcases hd.1 ⟨hpre, rfl⟩ with ⟨_, q, _⟩ | ⟨m, hm, iv, rv, cnt⟩
            · rw [hresV] at q
              simp at q
            · rw [hresV] at rv
              have hv : v = Val.inst m := Option.some.inj rv
              refine ⟨m, hv, hm, ?_, by rw [cnt]; rfl⟩
              rw [hv]
              exact iv
          · intro v1 hinv
            have ihh := hd.2 v1 hinv (Or.inl rfl)
            refine ⟨?_, ihh.1, ihh.2.2⟩
            intro u hu
            obtain rfl : v = u := Except.ok.inj hu
            rcases ihh.2.1 with hh | hh
            · rw [hresV] at hh
              simp [mapGet] at hh
            · rw [hresV] at hh
              exact Option.some.inj hh

/-- The number of calls in `calls` whose context key has not been seen
before (neither in `done` nor earlier in `calls`). -/
def newCtxCount (done : List String) : List String → Nat
  | [] => 0
  | c :: rest =>
      if c ∈ done then newCtxCount done rest
      else 1 + newCtxCount (c :: done) rest

theorem newCtxCount_card :
    ∀ (calls done : List String),
      newCtxCount done calls = (calls.toFinset \ done.toFinset).card := by
  intro calls
  induction calls with
  | nil =>
      intro done
      simp [newCtxCount]
  | cons c rest ih =>
      intro done
      by_cases hc : c ∈ done
      · rw [newCtxCount, if_pos hc, ih done]
        have hset : (c :: rest).toFinset \ done.toFinset
            = rest.toFinset \ done.toFinset := by
          ext x
          simp only [List.toFinset_cons, Finset.mem_sdiff, Finset.mem_insert,
            List.mem_toFinset]
          constructor
          · rintro ⟨rfl | hx, h2⟩
            · exact absurd hc h2
            · exact ⟨hx, h2⟩
          · rintro ⟨hx, h2⟩
            exact ⟨Or.inr hx, h2⟩
        rw [hset]
      · rw [newCtxCount, if_neg hc, ih (c :: done)]
        have hset : (c :: rest).toFinset \ done.toFinset
            = insert c (rest.toFinset \ (c :: done).toFinset) := by
          ext x
          simp only [List.toFinset_cons, Finset.mem_sdiff, Finset.mem_insert,
            List.mem_toFinset, List.mem_cons]
          constructor
          · rintro ⟨rfl | hx, h2⟩
            · exact Or.inl rfl
            · by_cases hxc : x = c
              · exact Or.inl hxc
              · exact Or.inr ⟨hx, fun hh => hh.elim (fun g => hxc g) h2⟩
          · rintro (rfl | ⟨hx, h2⟩)
            · exact ⟨Or.inl rfl, hc⟩
            · exact ⟨Or.inr hx, fun g => h2 (Or.inr g)⟩
        rw [hset, Finset.card_insert_of_not_mem]
        · omega
        · simp

theorem resolveSeq_c2_aux (k : String) (E : ContainerEntry)
    (hsc : E.scope = .Scoped)
    (hk1 : k ≠ containerReflectedKey) (hk2 : k ≠ lifecycleContextReflectedKey)
    (hk0 : k ≠ "") :
    ∀ (calls : List String) (w : World) (done : List String)
      (f : String → Val) (w' : World) (rs : List (Except DiErr Val))
      (log : List String),
      WfRegistry w.c.registry → mapGet w.c.registry k = some E →
      WFresh w →
      (∀ c ∈ done, C2Inv c k (f c) w.c.lifecycleContexts ∧
         ∃ i, f c = Val.inst i ∧ i < w.nextId) →
      (∀ c1 ∈ done, ∀ c2 ∈ done, c1 ≠ c2 → f c1 ≠ f c2) →
      (∀ c ∈ calls, c ∉ done → C2Pre c k w.c.lifecycleContexts) →
      resolveSeq k w (calls.map some) = (w', rs, log) →
      (∀ r ∈ rs, ∃ u, r = Except.ok u) →
      ∃ g : String → Val, (∀ c ∈ done, g c = f c) ∧
        rs = calls.map (fun x => Except.ok (g x)) ∧
        (∀ c1, (c1 ∈ done ∨ c1 ∈ calls) → ∀ c2, (c2 ∈ done ∨ c2 ∈ calls) →
          c1 ≠ c2 → g c1 ≠ g c2) ∧
        keyCount k log = newCtxCount done calls := by
  intro calls
  induction calls with
  | nil =>
      intro w done f w' rs log hwf hreg hfr hdone hinj hpend hrun hok
      rw [List.map_nil, resolveSeq] at hrun
      cases hrun
      refine ⟨f, fun c hc => rfl, rfl, ?_, rfl⟩
      intro c1 h1 c2 h2 hne
      rcases h1 with h1 | h1
      · rcases h2 with h2 | h2
        · exact hinj c1 h1 c2 h2 hne
        · exact absurd h2 (List.not_mem_nil c2)
      · exact absurd h1 (List.not_mem_nil c1)
  | cons c rest ihr =>
      intro w done f w' rs log hwf hreg hfr hdone hinj hpend hrun hok
      rw [List.map_cons, resolveSeq] at hrun
      split at hrun
      rename_i r w1 log1 hres1
      split at hrun
      rename_i w2 rs2 logs2 hseq
      obtain ⟨hw2, hrest2⟩ := Prod.mk.inj hrun
      obtain ⟨hrs2, hlog2⟩ := Prod.mk.inj hrest2
      subst hw2
      subst hrs2
      subst hlog2
      obtain ⟨u, rfl⟩ := hok r (List.mem_cons_self r rs2)
      obtain ⟨hregp, hnid, hfrp, hclo, hkne, hPre, hInv⟩ :=
        Resolve_scoped w k E c hwf hreg hsc hk1 hk2 hk0 (Except.ok u) w1
          log1 hres1
      have hwf1 : WfRegistry w1.c.registry := by rw [hregp]; exact hwf
      have hreg1 : mapGet w1.c.registry k = some E := by rw [hregp]; exact hreg
      have hfr1 : WFresh w1 := hfrp hfr
      have hok2 : ∀ r ∈ rs2, ∃ u, r = Except.ok u :=
        fun r hr => hok r (List.mem_cons_of_mem _ hr)
      by_cases hcdone : c ∈ done
      · -- a context seen before: cache hit, no new invocation
        obtain ⟨huval, hinv1, hcnt1⟩ := hInv (f c) (hdone c hcdone).1
        have hu : u = f c := huval u rfl
        have hdone1 : ∀ c' ∈ done, C2Inv c' k (f c') w1.c.lifecycleContexts ∧
            ∃ i, f c' = Val.inst i ∧ i < w1.nextId := by
          intro c' hc'
          obtain ⟨hinvc', i, hfi, hlt⟩ := hdone c' hc'
          refine ⟨?_, i, hfi, Nat.lt_of_lt_of_le hlt hnid⟩
          by_cases hcc : c' = c
          · subst hcc
            exact hinv1
          · rw [C2Inv_iff_slots] at hinvc' ⊢
            rw [hkne c' hcc, hclo c']
            exact hinvc'
        have hpend1 : ∀ c'' ∈ rest, c'' ∉ done →
            C2Pre c'' k w1.c.lifecycleContexts := by
          intro c'' hc'' hnd
          have hne : c'' ≠ c := fun hh => hnd (hh ▸ hcdone)
          have hp := hpend c'' (List.mem_cons_of_mem c hc'') hnd
          rw [C2Pre_iff_slots] at hp ⊢
          rw [hkne c'' hne, hclo c'']
          exact hp
        obtain ⟨g, hagree, hrs, hginj, hcnt⟩ := ihr w1 done f w2 rs2 logs2
          hwf1 hreg1 hfr1 hdone1 hinj hpend1 hseq hok2
        have hgc : g c = u := by
          rw [hagree c hcdone]
          exact hu.symm
        refine ⟨g, hagree, ?_, ?_, ?_⟩
        · simp only [List.map_cons]
          rw [hgc, ← hrs]
        · intro c1 h1 c2 h2 hne12
          refine hginj c1 ?_ c2 ?_ hne12
          · rcases h1 with h1 | h1
            · exact Or.inl h1
            · rcases List.mem_cons.mp h1 with rfl | h1
              · exact Or.inl hcdone
              · exact Or.inr h1
          · rcases h2 with h2 | h2
            · exact Or.inl h2
            · rcases List.mem_cons.mp h2 with rfl | h2
              · exact Or.inl hcdone
              · exact Or.inr h2
        · rw [keyCount_append, hcnt1, hcnt, newCtxCount, if_pos hcdone]
          omega
      · -- a fresh context: the factory fires once for it
        have hpre_c := hpend c (List.mem_cons_self c rest) hcdone
        obtain ⟨m, hum, hmge, hinv1, hcnt1⟩ := hPre hpre_c u rfl
        have hmlt : m < w1.nextId := by
          obtain ⟨cx1, hcx1, hop1, hcache1⟩ := hinv1
          rw [hum] at hcache1
          exact hfr1 c cx1 hcx1 k m hcache1
        have hdone1 : ∀ c' ∈ c :: done,
            C2Inv c' k (if c' = c then u else f c') w1.c.lifecycleContexts ∧
            ∃ i, (if c' = c then u else f c') = Val.inst i ∧ i < w1.nextId := by
          intro c' hc'
          rcases List.mem_cons.mp hc' with rfl | hc'
          · rw [if_pos rfl]
            exact ⟨hinv1, m, hum, hmlt⟩
          · have hne : c' ≠ c := fun hh => hcdone (hh ▸ hc')
            obtain ⟨hinvc', i, hfi, hlt⟩ := hdone c' hc'
            rw [if_neg hne]
            refine ⟨?_, i, hfi, Nat.lt_of_lt_of_le hlt hnid⟩
            rw [C2Inv_iff_slots] at hinvc' ⊢
            rw [hkne c' hne, hclo c']
            exact hinvc'
        have hinj1 : ∀ c1 ∈ c :: done, ∀ c2 ∈ c :: done, c1 ≠ c2 →
            (if c1 = c then u else f c1) ≠ (if c2 = c then u else f c2) := by
          intro c1 h1 c2 h2 hne12
          rcases List.mem_cons.mp h1 with he1 | hd1
          · rcases List.mem_cons.mp h2 with he2 | hd2
            · exact absurd (he1.trans he2.symm) hne12
            · have hne2 : c2 ≠ c := fun hh => hcdone (hh ▸ hd2)
              rw [if_pos he1, if_neg hne2]
              obtain ⟨_, i, hfi, hlt⟩ := hdone c2 hd2
              rw [hum, hfi]
              intro hh
              have := Val.inst.inj hh
              omega
          · rcases List.mem_cons.mp h2 with he2 | hd2
            · have hne1 : c1 ≠ c := fun hh => hcdone (hh ▸ hd1)
              rw [if_neg hne1, if_pos he2]
              obtain ⟨_, i, hfi, hlt⟩ := hdone c1 hd1
              rw [hum, hfi]
              intro hh
              have := Val.inst.inj hh
              omega
            · have hne1 : c1 ≠ c := fun hh => hcdone (hh ▸ hd1)
              have hne2 : c2 ≠ c := fun hh => hcdone (hh ▸ hd2)
              rw [if_neg hne1, if_neg hne2]
              exact hinj c1 hd1 c2 hd2 hne12
        have hpend1 : ∀ c'' ∈ rest, c'' ∉ c :: done →
            C2Pre c'' k w1.c.lifecycleContexts := by
          intro c'' hc'' hnd
          have hne : c'' ≠ c := fun hh => hnd (hh ▸ List.mem_cons_self c done)
          have hndd : c'' ∉ done := fun hh => hnd (List.mem_cons_of_mem c hh)
          have hp := hpend c'' (List.mem_cons_of_mem c hc'') hndd
          rw [C2Pre_iff_slots] at hp ⊢
          rw [hkne c'' hne, hclo c'']
          exact hp
        obtain ⟨g, hagree, hrs, hginj, hcnt⟩ := ihr w1 (c :: done)
          (fun x => if x = c then u else f x) w2 rs2 logs2
          hwf1 hreg1 hfr1 hdone1 hinj1 hpend1 hseq hok2
        have hgc : g c = u := by
          rw [hagree c (List.mem_cons_self c done)]
          simp
        refine ⟨g, ?_, ?_, ?_, ?_⟩
        · intro c' hc'
          have hne : c' ≠ c := fun hh => hcdone (hh ▸ hc')
          rw [hagree c' (List.mem_cons_of_mem c hc')]
          simp [hne]
        · simp only [List.map_cons]
          rw [hgc, ← hrs]
        · intro c1 h1 c2 h2 hne12
          refine hginj c1 ?_ c2 ?_ hne12
          · rcases h1 with h1 | h1
            · exact Or.inl (List.mem_cons_of_mem c h1)
            · rcases List.mem_cons.mp h1 with rfl | h1
              · exact Or.inl (List.mem_cons_self c1 done)
              · exact Or.inr h1
          · rcases h2 with h2 | h2
            · exact Or.inl (List.mem_cons_of_mem c h2)
            · rcases List.mem_cons.mp h2 with rfl | h2
              · exact Or.inl (List.mem_cons_self c2 done)
              · exact Or.inr h2
        · rw [keyCount_append, hcnt1, hcnt, newCtxCount, if_neg hcdone]

/-- **C2.** For an identity registered with scope Scoped (non-blank, not
one of the synthesized self-injectable identities), over any sequence of
resolutions of that identity that pass lifecycle contexts which are
tracked, live and do not yet cache the identity — and that all succeed —
there is an assignment of one instance per context such that every
resolution returns its context's instance, resolutions from distinct
contexts return distinct instances, and the identity's factory is
invoked exactly once per distinct context appearing in the sequence. -/
theorem scoped_per_context (w : World) (k : String) (E : ContainerEntry)
    (calls : List String) (w' : World) (rs : List (Except DiErr Val))
    (log : List String)
    (hwf : WfRegistry w.c.registry)
    (hreg : mapGet w.c.registry k = some E)
    (hsc : E.scope = .Scoped)
    (hk1 : k ≠ containerReflectedKey) (hk2 : k ≠ lifecycleContextReflectedKey)
    (hk0 : k ≠ "")
    (hfr : WFresh w)
    (hctxs : ∀ c ∈ calls, C2Pre c k w.c.lifecycleContexts)
    (hrun : resolveSeq k w (calls.map some) = (w', rs, log))
    (hok : ∀ r ∈ rs, ∃ u, r = Except.ok u) :
    ∃ f : String → Val,
      rs = calls.map (fun x => Except.ok (f x)) ∧
      (∀ c1 ∈ calls, ∀ c2 ∈ calls, c1 ≠ c2 → f c1 ≠ f c2) ∧
      keyCount k log = calls.toFinset.card := by
  obtain ⟨g, _, hrs, hginj, hcnt⟩ := resolveSeq_c2_aux k E hsc hk1 hk2 hk0
    calls w [] (fun _ => Val.containerRef) w' rs log hwf hreg hfr
    (fun c hc => absurd hc (List.not_mem_nil c))
    (fun c1 h1 => absurd h1 (List.not_mem_nil c1))
    (fun c hc _ => hctxs c hc)
    hrun hok
  refine ⟨g, hrs, ?_, ?_⟩
  · intro c1 h1 c2 h2 hne
    exact hginj c1 (Or.inr h1) c2 (Or.inr h2) hne
  · rw [hcnt, newCtxCount_card]
    simp

/-- Concrete one-scoped-registration container with two extra
lifecycle contexts, used as the C2 witness. -/
def c2World : World :=
  { c := { registry :=
             [("pkg/S", { serviceType := .named "pkg" "S" "pkg.S",
                          key := "pkg/S", factoryFnParams := [],
                          scope := .Scoped })],
           lifecycleContexts :=
             [(backgroundContextKey, NewLifecycleContext "bg"),
              ("c1", NewLifecycleContext "c1"),
              ("c2", NewLifecycleContext "c2")] },
    nextId := 0 }

theorem scoped_per_context_witness :
    ∃ f : String → Val,
      (resolveSeq "pkg/S" c2World (["c1", "c2", "c1"].map some)).2.1
        = ["c1", "c2", "c1"].map (fun x => Except.ok (f x)) ∧
      (∀ c1 ∈ ["c1", "c2", "c1"], ∀ c2 ∈ ["c1", "c2", "c1"],
        c1 ≠ c2 → f c1 ≠ f c2) ∧
      keyCount "pkg/S"
          (resolveSeq "pkg/S" c2World (["c1", "c2", "c1"].map some)).2.2
        = (["c1", "c2", "c1"] : List String).toFinset.card := by
  refine scoped_per_context c2World "pkg/S"
    { serviceType := .named "pkg" "S" "pkg.S", key := "pkg/S",
      factoryFnParams := [], scope := .Scoped }
    ["c1", "c2", "c1"]
    (resolveSeq "pkg/S" c2World (["c1", "c2", "c1"].map some)).1
    (resolveSeq "pkg/S" c2World (["c1", "c2", "c1"].map some)).2.1
    (resolveSeq "pkg/S" c2World (["c1", "c2", "c1"].map some)).2.2
    (wf_single_registry _ _ rfl) (by decide) rfl (by decide) (by decide)
    (by decide) ?_ ?_ rfl ?_
  · intro c cx hc kk i hkk
    simp only [c2World, mapGet] at hc
    split_ifs at hc
    · cases hc
      simp [NewLifecycleContext, mapGet] at hkk
    · cases hc
      simp [NewLifecycleContext, mapGet] at hkk
    · cases hc
      simp [NewLifecycleContext, mapGet] at hkk
  · intro c hc
    simp only [List.mem_cons, List.not_mem_nil, or_false] at hc
    rcases hc with rfl | rfl | rfl
    · exact ⟨NewLifecycleContext "c1", by decide, rfl, rfl⟩
    · exact ⟨NewLifecycleContext "c2", by decide, rfl, rfl⟩
    · exact ⟨NewLifecycleContext "c1", by decide, rfl, rfl⟩
  · intro r hr
    have hrs : (resolveSeq "pkg/S" c2World (["c1", "c2", "c1"].map some)).2.1
        = [Except.ok (Val.inst 0), Except.ok (Val.inst 1),
           Except.ok (Val.inst 0)] := by rfl
    rw [hrs] at hr
    simp only [List.mem_cons, List.not_mem_nil, or_false] at hr
    rcases hr with rfl | rfl | rfl
    · exact ⟨Val.inst 0, rfl⟩
    · exact ⟨Val.inst 1, rfl⟩
    · exact ⟨Val.inst 0, rfl⟩
